import Mathlib

/-!
Verification of the workspace CLI's core algorithms against a shallow
embedding of its source.  Each section embeds one component of the source
(the config resolver's forwards and mount normalization, the state store,
the SSH key selector, the docker run-argument assembly, the in-container
init) and proves or refutes the specified properties.
-/

namespace WorkspaceProof

/-! ## JavaScript primitive modelling

JS numbers are modelled as `Int` (every value the claims exercise is an
integer).  String primitives are modelled structurally on character
lists so that concrete instances evaluate inside the kernel:
`parseIntChars` models `Number.parseInt(s.trim(), 10)` (trim, optional
sign, maximal leading digit run; `none` plays the role of `NaN`),
`splitOnChar` models `String.prototype.split` with a one-character
separator, and `listIsInfix` models `String.prototype.includes`. -/

def digitVal (c : Char) : Nat := c.toNat - '0'.toNat

/-- Value of a digit list read in base 10. -/
def digitsToNat (cs : List Char) : Nat :=
  cs.foldl (fun a c => a * 10 + digitVal c) 0

/-- The maximal leading digit run of `cs`, or `none` when `cs` does not
start with a digit (this is `parseInt`'s NaN case). -/
def leadingDigits (cs : List Char) : Option Nat :=
  let ds := cs.takeWhile Char.isDigit
  if ds.isEmpty then none else some (digitsToNat ds)

/-- Trim: drop leading and trailing whitespace. -/
def trimChars (cs : List Char) : List Char :=
  ((cs.dropWhile Char.isWhitespace).reverse.dropWhile Char.isWhitespace).reverse

/-- Model of `Number.parseInt(s.trim(), 10)`: whitespace trimmed, an
optional `+`/`-` sign, then the maximal leading digit run; `none` for NaN. -/
def parseIntChars (s : List Char) : Option Int :=
  match trimChars s with
  | '-' :: rest => (leadingDigits rest).map (fun n => -(n : Int))
  | '+' :: rest => (leadingDigits rest).map (fun n => (n : Int))
  | cs => (leadingDigits cs).map (fun n => (n : Int))

def jsParseInt (s : String) : Option Int := parseIntChars s.toList

/-- Model of `String.prototype.split` with a one-character separator:
`"a:b".split(":") = ["a","b"]`, `"".split(":") = [""]`. -/
def splitOnChar (sep : Char) : List Char → List (List Char)
  | [] => [[]]
  | c :: rest =>
    let r := splitOnChar sep rest
    if c = sep then [] :: r
    else
      match r with
      | h :: t => (c :: h) :: t
      | [] => [[c]]

/-- Decides whether `pat` is a prefix of `s`. -/
def listIsPrefix : List Char → List Char → Bool
  | [], _ => true
  | _ :: _, [] => false
  | p :: ps, c :: cs => p = c && listIsPrefix ps cs

/-- Decides whether `pat` occurs contiguously in `s`. -/
def listIsInfix (pat : List Char) : List Char → Bool
  | [] => pat.isEmpty
  | c :: rest => listIsPrefix pat (c :: rest) || listIsInfix pat rest

/-- Model of `String.prototype.includes`. -/
def jsIncludes (s pat : String) : Bool :=
  listIsInfix pat.toList s.toList

theorem listIsInfix_append_left {pat b : List Char} (a : List Char)
    (h : listIsInfix pat b = true) : listIsInfix pat (a ++ b) = true := by
  induction a with
  | nil => simpa
  | cons x xs ih =>
    cases b with
    | nil =>
      simp only [listIsInfix, List.isEmpty_iff] at h
      subst h
      induction (x :: xs ++ []) with
      | nil => simp [listIsInfix]
      | cons y ys ihy => simp [listIsInfix, listIsPrefix]
    | cons b0 bs =>
      simp only [List.cons_append, listIsInfix, Bool.or_eq_true]
      exact Or.inr ih

/-! ## Forwards normalization (`src/src/config.ts`, `resolveConfig`)

A raw `forwards` entry is a number, a string, an object with an
`internal` field, or anything else.  `{internal: v}` is modelled by the
two shapes `v` can take (`objNum` / `objStr`); the JS truthiness test
`forward.internal` makes `0` and `""` fall through to the dropped case
(and `parseInt(String(n))` returns the integer `n` itself). -/

inductive ForwardInput where
  | num (n : Int)
  | str (s : String)
  | objNum (n : Int)
  | objStr (s : String)
  | other
deriving Repr, DecidableEq

/-- The list `[a, a+1, ..., b]` (empty when `b < a`): the loop
`for (let port = start; port <= end; port++) range.push(port)`. -/
def rangeList (a b : Int) : List Int :=
  (List.range (b - a + 1).toNat).map (fun i => a + Int.ofNat i)

/-- The string branch of the forwards `flatMap`: pick the separator
(`:` wins over `-`), split, `parseInt` the first two parts, and expand
the inclusive range when `start ≤ end && start > 0`. -/
def expandRangeChars (cs : List Char) : List (Option Int) :=
  if listIsInfix ['-'] cs || listIsInfix [':'] cs then
    match splitOnChar (if listIsInfix [':'] cs then ':' else '-') cs with
    | p0 :: p1 :: _ =>
      match parseIntChars p0, parseIntChars p1 with
      | some a, some b =>
        if a ≤ b ∧ 0 < a then (rangeList a b).map some else [none]
      | _, _ => [none]
    | _ => [none]
  else [none]

/-- One step of the `flatMap` in the forwards normalization of
`resolveConfig`.  `none` elements stand for JS `null`/`NaN` entries that
the trailing `filter` removes. -/
def expandForward : ForwardInput → List (Option Int)
  | .num n => [some n]
  | .str s => expandRangeChars s.toList
  | .objNum n => if n = 0 then [none] else [some n]
  | .objStr s => if s = "" then [none] else [jsParseInt s]
  | .other => [none]

/-- The whole forwards normalization: `flatMap` then
`filter(port != null && !NaN(port) && port > 0)`. -/
def resolveForwards (inputs : List ForwardInput) : List Int :=
  (inputs.flatMap expandForward).filterMap
    (fun o => match o with
      | some p => if 0 < p then some p else none
      | none => none)

theorem resolveForwards_append (xs ys : List ForwardInput) :
    resolveForwards (xs ++ ys) = resolveForwards xs ++ resolveForwards ys := by
  simp [resolveForwards, List.flatMap_append, List.filterMap_append]

theorem resolveForwards_pos {inputs : List ForwardInput} {p : Int}
    (hp : p ∈ resolveForwards inputs) : 0 < p := by
  simp only [resolveForwards, List.mem_filterMap] at hp
  obtain ⟨o, _, ho⟩ := hp
  cases o with
  | none => simp at ho
  | some q =>
    by_cases hq : 0 < q
    · simp [hq] at ho; omega
    · simp [hq] at ho

theorem resolveForwards_num (i : Int) :
    resolveForwards [.num i] = if 0 < i then [i] else [] := by
  by_cases hi : 0 < i <;> simp [resolveForwards, expandForward, hi]

theorem rangeList_length {a b : Int} :
    (rangeList a b).length = (b - a + 1).toNat := by
  rw [rangeList, List.length_map]
  exact List.length_range _

theorem rangeList_getD {a b : Int} (i : Nat) (hi : i < (rangeList a b).length) :
    (rangeList a b).getD i 0 = a + i := by
  rw [rangeList_length] at hi
  rw [List.getD, rangeList, List.get?_map, List.get?_range hi]
  rfl

theorem rangeList_pos {a b : Int} (ha : 0 < a) {q : Int}
    (hq : q ∈ rangeList a b) : 0 < q := by
  simp only [rangeList, List.mem_map, List.mem_range] at hq
  obtain ⟨i, _, rfl⟩ := hq
  have hnn : (0 : Int) ≤ Int.ofNat i := Int.ofNat_nonneg i
  omega

theorem filterMap_pos_of_all {l : List Int} (h : ∀ q ∈ l, 0 < q) :
    ((l.map some).filterMap
      (fun o => match o with
        | some p => if 0 < p then some p else none
        | none => none)) = l := by
  induction l with
  | nil => simp
  | cons q qs ih =>
    have hq : 0 < q := h q (by simp)
    simp only [List.map_cons, List.filterMap_cons]
    rw [if_pos hq, ih (fun r hr => h r (by simp [hr]))]

theorem expandRangeChars_range {cs sa sb : List Char}
    {rest : List (List Char)} {a b : Int}
    (hsep : listIsInfix [':'] cs = false)
    (hdash : listIsInfix ['-'] cs = true)
    (hsplit : splitOnChar '-' cs = sa :: sb :: rest)
    (hpa : parseIntChars sa = some a) (hpb : parseIntChars sb = some b)
    (ha : 0 < a) (hab : a ≤ b) :
    expandRangeChars cs = (rangeList a b).map some := by
  simp only [expandRangeChars, hdash, hsep, hsplit, hpa, hpb, Bool.or_false,
    Bool.false_eq_true, if_false, if_true]
  rw [if_pos ⟨hab, ha⟩]

theorem resolveForwards_range {s : String} {sa sb : List Char}
    {rest : List (List Char)} {a b : Int}
    (hsep : listIsInfix [':'] s.toList = false)
    (hdash : listIsInfix ['-'] s.toList = true)
    (hsplit : splitOnChar '-' s.toList = sa :: sb :: rest)
    (hpa : parseIntChars sa = some a) (hpb : parseIntChars sb = some b)
    (ha : 0 < a) (hab : a ≤ b) :
    resolveForwards [.str s] = rangeList a b := by
  rw [resolveForwards]
  simp only [List.flatMap_cons, List.flatMap_nil, List.append_nil, expandForward]
  rw [expandRangeChars_range hsep hdash hsplit hpa hpb ha hab]
  exact filterMap_pos_of_all (fun q hq => rangeList_pos ha hq)

theorem expandRangeChars_range_colon {cs sa sb : List Char}
    {rest : List (List Char)} {a b : Int}
    (hsep : listIsInfix [':'] cs = true)
    (hsplit : splitOnChar ':' cs = sa :: sb :: rest)
    (hpa : parseIntChars sa = some a) (hpb : parseIntChars sb = some b)
    (ha : 0 < a) (hab : a ≤ b) :
    expandRangeChars cs = (rangeList a b).map some := by
  simp only [expandRangeChars, hsep, Bool.or_true, if_true, hsplit, hpa, hpb]
  rw [if_pos ⟨hab, ha⟩]

theorem resolveForwards_range_colon {s : String} {sa sb : List Char}
    {rest : List (List Char)} {a b : Int}
    (hsep : listIsInfix [':'] s.toList = true)
    (hsplit : splitOnChar ':' s.toList = sa :: sb :: rest)
    (hpa : parseIntChars sa = some a) (hpb : parseIntChars sb = some b)
    (ha : 0 < a) (hab : a ≤ b) :
    resolveForwards [.str s] = rangeList a b := by
  rw [resolveForwards]
  simp only [List.flatMap_cons, List.flatMap_nil, List.append_nil, expandForward]
  rw [expandRangeChars_range_colon hsep hsplit hpa hpb ha hab]
  exact filterMap_pos_of_all (fun q hq => rangeList_pos ha hq)

/-- A range string one of whose endpoints fails to parse takes the
`[none]` branch: it contributes nothing. -/
theorem expandRangeChars_parse_fail {cs sa sb : List Char}
    {rest : List (List Char)}
    (hsep : (listIsInfix ['-'] cs || listIsInfix [':'] cs) = true)
    (hsplit : splitOnChar (if listIsInfix [':'] cs then ':' else '-') cs =
      sa :: sb :: rest)
    (h : parseIntChars sa = none ∨ parseIntChars sb = none) :
    expandRangeChars cs = [none] := by
  rcases hpa : parseIntChars sa with _ | a
  · simp only [expandRangeChars, hsep, if_true, hsplit, hpa]
  · rcases h with h | h
    · rw [hpa] at h
      exact Option.noConfusion h
    · simp only [expandRangeChars, hsep, if_true, hsplit, hpa, h]

/-- A range string whose endpoints parse but are inverted (`b < a`) or
start non-positively takes the `[none]` branch: it contributes nothing. -/
theorem expandRangeChars_inverted {cs sa sb : List Char}
    {rest : List (List Char)} {a b : Int}
    (hsep : (listIsInfix ['-'] cs || listIsInfix [':'] cs) = true)
    (hsplit : splitOnChar (if listIsInfix [':'] cs then ':' else '-') cs =
      sa :: sb :: rest)
    (hpa : parseIntChars sa = some a) (hpb : parseIntChars sb = some b)
    (hcond : ¬(a ≤ b ∧ 0 < a)) :
    expandRangeChars cs = [none] := by
  simp only [expandRangeChars, hsep, if_true, hsplit, hpa, hpb]
  rw [if_neg hcond]

/-- A string entry whose expansion is `[none]` contributes no ports, in
place: the surrounding entries normalize as if it were absent. -/
theorem resolveForwards_str_none {s : String}
    (h : expandRangeChars s.toList = [none]) (xs ys : List ForwardInput) :
    resolveForwards (xs ++ .str s :: ys) = resolveForwards xs ++ resolveForwards ys := by
  have hsplit : xs ++ ForwardInput.str s :: ys = (xs ++ [ForwardInput.str s]) ++ ys := by
    simp
  have hmid : resolveForwards [ForwardInput.str s] = [] := by
    rw [resolveForwards]
    simp only [List.flatMap_cons, List.flatMap_nil, List.append_nil, expandForward, h]
    rfl
  rw [hsplit, resolveForwards_append, resolveForwards_append, hmid, List.append_nil]

theorem resolveForwards_example : resolveForwards [.str "7000-7000"] = [7000] := by
  decide

theorem resolveForwards_zero_negone :
    resolveForwards [.num 0] = [] ∧ resolveForwards [.num (-1)] = [] := by
  decide

/-- Every string entry either contributes nothing or is a well-formed
range `A..B` with `0 < A ≤ B`. -/
theorem expandRangeChars_characterization (cs : List Char) :
    expandRangeChars cs = [none] ∨
      ∃ a b : Int, 0 < a ∧ a ≤ b ∧
        expandRangeChars cs = (rangeList a b).map some := by
  by_cases hsep : (listIsInfix ['-'] cs || listIsInfix [':'] cs) = true
  · rcases hp : splitOnChar (if listIsInfix [':'] cs then ':' else '-') cs with
      _ | ⟨p0, _ | ⟨p1, rest⟩⟩
    · left; simp only [expandRangeChars, if_pos hsep, hp]
    · left; simp only [expandRangeChars, if_pos hsep, hp]
    · rcases hpa : parseIntChars p0 with _ | a
      · left; simp only [expandRangeChars, if_pos hsep, hp, hpa]
      · rcases hpb : parseIntChars p1 with _ | b
        · left; simp only [expandRangeChars, if_pos hsep, hp, hpa, hpb]
        · by_cases hcond : a ≤ b ∧ 0 < a
          · right
            refine ⟨a, b, hcond.2, hcond.1, ?_⟩
            simp only [expandRangeChars, if_pos hsep, hp, hpa, hpb, if_pos hcond]
          · left
            simp only [expandRangeChars, if_pos hsep, hp, hpa, hpb, if_neg hcond]
  · left; simp only [expandRangeChars, if_neg hsep]

/-! ## Mount normalization (`src/src/config.ts`, `resolveConfig`)

A raw mount string is split on `:`; arity 2 defaults the mode to `rw`,
arity 3 corrects an unknown mode to `rw`, arity 4 treats
`parts[0]:parts[1]` as the source (Windows drive tolerance), any other
arity is dropped.  A leading `~` in the source is replaced by the host
home directory, and a non-absolute source is joined onto the project
config directory.  The tool runs on a POSIX host, so `path.isAbsolute`
is "starts with `/`" and `path.join a b` is modelled as `a ++ "/" ++ b`
(the inputs the claims exercise contain no `.`/`..` segments, where
Node's join would additionally normalize). -/

structure ResolvedMount where
  source : String
  target : String
  mode : String
deriving Repr, DecidableEq

/-- First character test, structurally on the character list. -/
def strStartsWith (s : String) (c : Char) : Bool :=
  s.data.head? == some c

def dropFirstChar (s : String) : String := String.mk (s.toList.drop 1)

def isAbsolutePosix (s : String) : Bool := strStartsWith s '/'

def pathJoinSlash (a b : String) : String := a ++ "/" ++ b

/-- Model of `mount.split(":")`. -/
def splitColon (s : String) : List String :=
  (splitOnChar ':' s.toList).map (fun cs => String.mk cs)

/-- The tail of the mount normalization: `~` expansion followed by
resolution of relative sources against the config directory. -/
def finishMount (configDir homeDir source target mode : String) : ResolvedMount :=
  let s1 := if strStartsWith source '~' then homeDir ++ dropFirstChar source else source
  let s2 := if isAbsolutePosix s1 then s1 else pathJoinSlash configDir s1
  ⟨s2, target, mode⟩

/-- Model of `mode !== "ro" && mode !== "rw" → "rw"`. -/
def fixMode (mode : String) : String :=
  if mode = "ro" ∨ mode = "rw" then mode else "rw"

/-- One entry of the mount normalization `map`; `none` entries are
dropped by the trailing `filter`. -/
def normalizeMount (configDir homeDir m : String) : Option ResolvedMount :=
  match splitColon m with
  | [source, target] => some (finishMount configDir homeDir source target "rw")
  | [source, target, mode] =>
    some (finishMount configDir homeDir source target (fixMode mode))
  | [p0, p1, target, mode] =>
    some (finishMount configDir homeDir (p0 ++ ":" ++ p1) target (fixMode mode))
  | _ => none

/-- The whole mount normalization. -/
def resolveMounts (configDir homeDir : String) (ms : List String) : List ResolvedMount :=
  ms.filterMap (normalizeMount configDir homeDir)

theorem fixMode_ro_or_rw (mode : String) :
    fixMode mode = "ro" ∨ fixMode mode = "rw" := by
  by_cases h : mode = "ro" ∨ mode = "rw"
  · rw [fixMode, if_pos h]; exact h
  · right; rw [fixMode, if_neg h]

theorem finishMount_mode (configDir homeDir source target mode : String) :
    (finishMount configDir homeDir source target mode).mode = mode := rfl

theorem finishMount_target (configDir homeDir source target mode : String) :
    (finishMount configDir homeDir source target mode).target = target := rfl

theorem strStartsWith_append_left {a : String} (b : String) {c : Char}
    (h : strStartsWith a c = true) : strStartsWith (a ++ b) c = true := by
  unfold strStartsWith at h ⊢
  have hd : (a ++ b).data = a.data ++ b.data := String.data_append a b
  rw [hd]
  rcases ha : a.data with _ | ⟨x, xs⟩
  · rw [ha] at h; simp at h
  · rw [ha] at h
    rw [List.cons_append]
    simpa using h

theorem finishMount_absolute {configDir homeDir : String}
    (hc : isAbsolutePosix configDir = true) (hh : isAbsolutePosix homeDir = true)
    (source target mode : String) :
    isAbsolutePosix (finishMount configDir homeDir source target mode).source = true := by
  unfold finishMount
  by_cases ht : strStartsWith source '~' = true
  · have habs : isAbsolutePosix (homeDir ++ dropFirstChar source) = true :=
      strStartsWith_append_left _ hh
    simp only [ht, if_true, habs]
  · simp only [ht, Bool.false_eq_true, if_false]
    by_cases habs : isAbsolutePosix source = true
    · rw [if_pos habs]; exact habs
    · simp only [habs, Bool.false_eq_true, if_false]
      unfold pathJoinSlash
      have h2 : isAbsolutePosix (configDir ++ ("/" ++ source)) = true :=
        strStartsWith_append_left _ hc
      simpa [String.append_assoc] using h2

/-- Every successfully normalized mount comes from an arity-2, arity-3
or arity-4 split, with the arity-4 case gluing `parts[0]:parts[1]` back
together as the raw source. -/
theorem normalizeMount_cases {configDir homeDir m : String} {r : ResolvedMount}
    (h : normalizeMount configDir homeDir m = some r) :
    (∃ s t, splitColon m = [s, t] ∧
        r = finishMount configDir homeDir s t "rw") ∨
    (∃ s t md, splitColon m = [s, t, md] ∧
        r = finishMount configDir homeDir s t (fixMode md)) ∨
    (∃ p0 p1 t md, splitColon m = [p0, p1, t, md] ∧
        r = finishMount configDir homeDir (p0 ++ ":" ++ p1) t (fixMode md)) := by
  unfold normalizeMount at h
  rcases hs : splitColon m with
      _ | ⟨p0, _ | ⟨p1, _ | ⟨p2, _ | ⟨p3, _ | ⟨p4, rest⟩⟩⟩⟩⟩ <;> rw [hs] at h
  · exact Option.noConfusion h
  · exact Option.noConfusion h
  · exact Or.inl ⟨p0, p1, rfl, (Option.some.inj h).symm⟩
  · exact Or.inr (Or.inl ⟨p0, p1, p2, rfl, (Option.some.inj h).symm⟩)
  · exact Or.inr (Or.inr ⟨p0, p1, p2, p3, rfl, (Option.some.inj h).symm⟩)
  · exact Option.noConfusion h

/-- Every normalized mount's mode is `ro` or `rw`. -/
theorem normalizeMount_mode {configDir homeDir m : String} {r : ResolvedMount}
    (h : normalizeMount configDir homeDir m = some r) :
    r.mode = "ro" ∨ r.mode = "rw" := by
  rcases normalizeMount_cases h with ⟨s, t, _, hr⟩ | ⟨s, t, md, _, hr⟩ |
      ⟨p0, p1, t, md, _, hr⟩
  · right; rw [hr, finishMount_mode]
  · rw [hr, finishMount_mode]; exact fixMode_ro_or_rw _
  · rw [hr, finishMount_mode]; exact fixMode_ro_or_rw _

/-- Every normalized mount's source is absolute (for absolute
`configDir` and `homeDir`). -/
theorem normalizeMount_absolute {configDir homeDir m : String} {r : ResolvedMount}
    (hc : isAbsolutePosix configDir = true) (hh : isAbsolutePosix homeDir = true)
    (h : normalizeMount configDir homeDir m = some r) :
    isAbsolutePosix r.source = true := by
  rcases normalizeMount_cases h with ⟨s, t, _, hr⟩ | ⟨s, t, md, _, hr⟩ |
      ⟨p0, p1, t, md, _, hr⟩ <;>
    (rw [hr]; exact finishMount_absolute hc hh _ _ _)

/-- Arity-4 mounts take `parts[0] ++ ":" ++ parts[1]` as the raw source. -/
theorem normalizeMount_four_parts {configDir homeDir m p0 p1 t md : String}
    (hs : splitColon m = [p0, p1, t, md]) :
    normalizeMount configDir homeDir m =
      some (finishMount configDir homeDir (p0 ++ ":" ++ p1) t (fixMode md)) := by
  unfold normalizeMount
  rw [hs]

/-! ## State store (`src/src/state.ts`)

The persisted state is the `workspaces` mapping; a JS object with
string keys in insertion order is modelled as an association list.
`findAvailableSshPort` scans upward from 2300 for a port neither
allocated in the state nor currently listening on the host; the
unbounded `while (true)` loop is modelled with enough fuel to cover
every blocked port (`searchFree_not_blocked` shows the fuel suffices).
`ensureWorkspaceState` and `removeWorkspaceState` are the two
operations that mutate the `workspaces` mapping; both run inside
`withLock`, which is modelled by the event trace `withLockEvents`. -/

structure WorkspaceRecord where
  sshPort : Nat
  forwards : List Int
  configDir : String
  selectedKey : Option String
deriving Repr, DecidableEq

abbrev StateWorkspaces := List (String × WorkspaceRecord)

/-- JS object property read `state.workspaces[name]`. -/
def lookupName (s : StateWorkspaces) (name : String) : Option WorkspaceRecord :=
  match s with
  | [] => none
  | kv :: rest => if kv.1 = name then some kv.2 else lookupName rest name

/-- In-place property update (JS mutates the existing record). -/
def updateName (s : StateWorkspaces) (name : String) (r : WorkspaceRecord) :
    StateWorkspaces :=
  s.map (fun kv => if kv.1 = name then (kv.1, r) else kv)

/-- Model of `Object.values(state.workspaces).map(ws => ws.sshPort)`. -/
def allocatedPorts (s : StateWorkspaces) : List Nat :=
  s.map (fun kv => kv.2.sshPort)

def SSH_PORT_START : Nat := 2300

/-- The `while (true)` scan of `findAvailableSshPort`, with fuel. -/
def searchFree (blocked : List Nat) : Nat → Nat → Nat
  | c, 0 => c
  | c, fuel + 1 => if c ∈ blocked then searchFree blocked (c + 1) fuel else c

/-- Model of `findAvailableSshPort(state)`: first port from 2300 upward not in
any record and not listening on the host. -/
def findAvailableSshPort (s : StateWorkspaces) (listening : List Nat) : Nat :=
  let blocked := allocatedPorts s ++ listening
  searchFree blocked SSH_PORT_START (blocked.dedup.length + 1)

theorem searchFree_ge (blocked : List Nat) (c fuel : Nat) :
    c ≤ searchFree blocked c fuel := by
  induction fuel generalizing c with
  | zero => exact Nat.le_refl c
  | succ f ih =>
    rw [searchFree]
    by_cases hc : c ∈ blocked
    · rw [if_pos hc]
      exact Nat.le_trans (Nat.le_succ c) (ih (c + 1))
    · rw [if_neg hc]

theorem searchFree_not_blocked (blocked : List Nat) (c fuel : Nat)
    (hfuel : ((blocked.dedup).filter (fun b => c ≤ b)).length < fuel) :
    searchFree blocked c fuel ∉ blocked := by
  induction fuel generalizing c with
  | zero => exact absurd hfuel (Nat.not_lt_zero _)
  | succ f ih =>
    rw [searchFree]
    by_cases hc : c ∈ blocked
    · rw [if_pos hc]
      refine ih (c + 1) ?_
      have hcd : c ∈ blocked.dedup := List.mem_dedup.mpr hc
      have hsub : (blocked.dedup).filter (fun b => c + 1 ≤ b) =
          ((blocked.dedup).filter (fun b => c ≤ b)).filter (fun b => c + 1 ≤ b) := by
        rw [List.filter_filter]
        apply List.filter_congr
        intro b _
        by_cases hb : c + 1 ≤ b
        · have hb' : c ≤ b := Nat.le_of_succ_le hb
          simp [hb, hb']
        · simp [hb]
      have hmem : c ∈ (blocked.dedup).filter (fun b => c ≤ b) :=
        List.mem_filter.mpr ⟨hcd, by simp⟩
      have hlt : (((blocked.dedup).filter (fun b => c ≤ b)).filter
          (fun b => c + 1 ≤ b)).length < ((blocked.dedup).filter (fun b => c ≤ b)).length := by
        apply List.length_filter_lt_length_iff_exists.mpr
        exact ⟨c, hmem, by simp⟩
      rw [hsub]
      exact Nat.lt_of_lt_of_le hlt (Nat.le_of_lt_succ hfuel)
    · rw [if_neg hc]
      exact hc

theorem findAvailableSshPort_free (s : StateWorkspaces) (listening : List Nat) :
    findAvailableSshPort s listening ∉ allocatedPorts s ++ listening := by
  apply searchFree_not_blocked
  exact Nat.lt_succ_of_le (List.length_filter_le _ _)

theorem findAvailableSshPort_ge (s : StateWorkspaces) (listening : List Nat) :
    SSH_PORT_START ≤ findAvailableSshPort s listening :=
  searchFree_ge _ _ _

/-- The `resolved.workspace` fields that `ensureWorkspaceState` reads. -/
structure ResolvedForState where
  name : String
  configDir : String
  forwards : List Int
deriving Repr, DecidableEq

/-- Model of `ensureWorkspaceState(resolved)` (the body run under the lock): a
missing record is created with a freshly allocated port and empty
forwards; then `forwards` and `configDir` are overwritten from the
resolved config; the returned record reads `selectedKey ?? null`. -/
def ensureWorkspaceState (listening : List Nat) (resolved : ResolvedForState)
    (s : StateWorkspaces) : StateWorkspaces × WorkspaceRecord :=
  match lookupName s resolved.name with
  | some r =>
    let r' : WorkspaceRecord :=
      { r with forwards := resolved.forwards, configDir := resolved.configDir }
    (updateName s resolved.name r', r')
  | none =>
    let port := findAvailableSshPort s listening
    let r' : WorkspaceRecord :=
      { sshPort := port, forwards := resolved.forwards,
        configDir := resolved.configDir, selectedKey := none }
    (s ++ [(resolved.name, r')], r')

/-- Model of `removeWorkspaceState(name)` (the body run under the lock). -/
def removeWorkspaceState (name : String) (s : StateWorkspaces) : StateWorkspaces :=
  s.filter (fun kv => kv.1 ≠ name)

/-- The state-file invariant: record names are unique (JS object keys),
SSH ports are pairwise distinct, and every port is at least 2300. -/
def StateInv (s : StateWorkspaces) : Prop :=
  (s.map (fun kv => kv.1)).Nodup ∧
  (s.map (fun kv => kv.2.sshPort)).Nodup ∧
  ∀ kv ∈ s, SSH_PORT_START ≤ kv.2.sshPort

theorem lookupName_eq_none_iff (s : StateWorkspaces) (name : String) :
    lookupName s name = none ↔ name ∉ s.map (fun kv => kv.1) := by
  induction s with
  | nil => simp [lookupName]
  | cons kv rest ih =>
    by_cases hk : kv.1 = name
    · simp [lookupName, hk]
    · simp only [lookupName, hk, if_false, List.map_cons, List.mem_cons, ih]
      constructor
      · rintro h (h1 | h2)
        · exact hk h1.symm
        · exact h h2
      · intro h
        exact fun h2 => h (Or.inr h2)

theorem updateName_cons (kv : String × WorkspaceRecord) (rest : StateWorkspaces)
    (name : String) (r' : WorkspaceRecord) :
    updateName (kv :: rest) name r' =
      (if kv.1 = name then (kv.1, r') else kv) :: updateName rest name r' := rfl

theorem updateName_ports {s : StateWorkspaces} {name : String} {r : WorkspaceRecord}
    (r' : WorkspaceRecord) (hkeys : (s.map (fun kv => kv.1)).Nodup)
    (hl : lookupName s name = some r) (hport : r'.sshPort = r.sshPort) :
    (updateName s name r').map (fun kv => kv.2.sshPort) =
      s.map (fun kv => kv.2.sshPort) := by
  induction s with
  | nil => simp [lookupName] at hl
  | cons kv rest ih =>
    rw [updateName_cons]
    by_cases hk : kv.1 = name
    · rw [lookupName, if_pos hk] at hl
      have hr : kv.2 = r := Option.some.inj hl
      have hrest : name ∉ rest.map (fun kv => kv.1) := by
        rw [← hk]
        exact (List.nodup_cons.mp hkeys).1
      have hfix : updateName rest name r' = rest := by
        unfold updateName
        have hcongr : ∀ x ∈ rest, (if x.1 = name then (x.1, r') else x) = x := by
          intro x hx
          have hxname : x.1 ≠ name := by
            intro hcontra
            exact hrest (hcontra ▸ List.mem_map_of_mem (fun kv => kv.1) hx)
          rw [if_neg hxname]
        rw [List.map_congr_left hcongr]
        simp
      rw [if_pos hk, hfix, List.map_cons, List.map_cons]
      simp [hport, hr]
    · rw [lookupName, if_neg hk] at hl
      have ihr := ih (List.nodup_cons.mp hkeys).2 hl
      rw [if_neg hk, List.map_cons, List.map_cons, ihr]

theorem updateName_keys (s : StateWorkspaces) (name : String) (r' : WorkspaceRecord) :
    (updateName s name r').map (fun kv => kv.1) = s.map (fun kv => kv.1) := by
  induction s with
  | nil => rfl
  | cons kv rest ih =>
    rw [updateName_cons]
    by_cases hk : kv.1 = name
    · rw [if_pos hk, List.map_cons, List.map_cons, ih]
    · rw [if_neg hk, List.map_cons, List.map_cons, ih]

theorem updateName_mem {s : StateWorkspaces} {name : String} {r' : WorkspaceRecord}
    {kv : String × WorkspaceRecord} (h : kv ∈ updateName s name r') :
    kv.2 = r' ∨ kv ∈ s := by
  unfold updateName at h
  obtain ⟨kv0, hkv0, heq⟩ := List.mem_map.mp h
  by_cases hk : kv0.1 = name
  · rw [if_pos hk] at heq
    left; rw [← heq]
  · rw [if_neg hk] at heq
    right; rw [← heq]; exact hkv0

theorem lookupName_mem {s : StateWorkspaces} {name : String} {r : WorkspaceRecord}
    (hl : lookupName s name = some r) : (name, r) ∈ s := by
  induction s with
  | nil => simp [lookupName] at hl
  | cons kv rest ih =>
    rw [lookupName] at hl
    by_cases hk : kv.1 = name
    · rw [if_pos hk] at hl
      have hkv : (name, r) = kv := by
        obtain ⟨k1, k2⟩ := kv
        simp only at hk
        subst hk
        have h2 : k2 = r := Option.some.inj hl
        subst h2
        rfl
      rw [hkv]
      exact List.mem_cons_self kv rest
    · rw [if_neg hk] at hl
      exact List.mem_cons_of_mem _ (ih hl)

/-- The operation `ensureWorkspaceState` preserves the state-file invariant. -/
theorem ensureWorkspaceState_inv {s : StateWorkspaces} (listening : List Nat)
    (resolved : ResolvedForState) (hinv : StateInv s) :
    StateInv (ensureWorkspaceState listening resolved s).1 := by
  obtain ⟨hkeys, hports, hge⟩ := hinv
  unfold ensureWorkspaceState
  rcases hl : lookupName s resolved.name with _ | r
  · dsimp only
    have hfree := findAvailableSshPort_free s listening
    have hfreealloc : findAvailableSshPort s listening ∉ allocatedPorts s := by
      intro hmem
      exact hfree (List.mem_append.mpr (Or.inl hmem))
    refine ⟨?_, ?_, ?_⟩
    · rw [List.map_append]
      rw [List.nodup_append]
      refine ⟨hkeys, by simp, ?_⟩
      intro a ha hb
      simp only [List.map_cons, List.map_nil, List.mem_singleton] at hb
      subst hb
      exact (lookupName_eq_none_iff s resolved.name).mp hl ha
    · rw [List.map_append]
      rw [List.nodup_append]
      refine ⟨hports, by simp, ?_⟩
      intro a ha hb
      simp only [List.map_cons, List.map_nil, List.mem_singleton] at hb
      subst hb
      exact hfreealloc ha
    · intro kv hkv
      rcases List.mem_append.mp hkv with hmem | hmem
      · exact hge kv hmem
      · simp only [List.mem_singleton] at hmem
        subst hmem
        exact findAvailableSshPort_ge s listening
  · dsimp only
    refine ⟨?_, ?_, ?_⟩
    · rw [updateName_keys]; exact hkeys
    · rw [updateName_ports
        { r with forwards := resolved.forwards, configDir := resolved.configDir }
        hkeys hl rfl]
      exact hports
    · intro kv hkv
      rcases updateName_mem hkv with hr | hmem
      · rw [hr]
        exact hge (resolved.name, r) (lookupName_mem hl)
      · exact hge kv hmem

/-- The operation `removeWorkspaceState` preserves the state-file invariant. -/
theorem removeWorkspaceState_inv {s : StateWorkspaces} (name : String)
    (hinv : StateInv s) : StateInv (removeWorkspaceState name s) := by
  obtain ⟨hkeys, hports, hge⟩ := hinv
  have hsub : List.Sublist (removeWorkspaceState name s) s := List.filter_sublist s
  refine ⟨?_, ?_, ?_⟩
  · exact (hsub.map (fun kv => kv.1)).nodup hkeys
  · exact (hsub.map (fun kv => kv.2.sshPort)).nodup hports
  · intro kv hkv
    exact hge kv (hsub.mem hkv)

/-- The operations the lifecycle commands perform on the `workspaces`
mapping: `start` calls `ensureWorkspaceState`, `destroy` calls
`removeWorkspaceState`, `stop` does not touch the state file. -/
inductive StateOp where
  | ensure (listening : List Nat) (resolved : ResolvedForState)
  | remove (name : String)
  | stop

def applyStateOp (s : StateWorkspaces) : StateOp → StateWorkspaces
  | .ensure listening resolved => (ensureWorkspaceState listening resolved s).1
  | .remove name => removeWorkspaceState name s
  | .stop => s

def runStateOps (ops : List StateOp) : StateWorkspaces :=
  ops.foldl applyStateOp []

theorem runStateOps_inv (ops : List StateOp) : StateInv (runStateOps ops) := by
  suffices h : ∀ s, StateInv s → StateInv (ops.foldl applyStateOp s) by
    exact h [] ⟨by simp, by simp, by simp⟩
  induction ops with
  | nil => intro s hs; exact hs
  | cons op rest ih =>
    intro s hs
    rw [List.foldl_cons]
    apply ih
    cases op with
    | ensure listening resolved => exact ensureWorkspaceState_inv listening resolved hs
    | remove name => exact removeWorkspaceState_inv name hs
    | stop => exact hs

/-! ### Locking discipline

`withLock` acquires the exclusive lock on the state file path, runs the
body, and releases in a `finally`; the bodies of `ensureWorkspaceState`
and `removeWorkspaceState` read and write the state file inside it. -/

inductive StateEvent where
  | acquire
  | read
  | write
  | release
deriving Repr, DecidableEq

/-- Model of `withLock(fn)`: acquire, run the body, release. -/
def withLockEvents (body : List StateEvent) : List StateEvent :=
  StateEvent.acquire :: body ++ [StateEvent.release]

/-- Events of `ensureWorkspaceState`: `loadState` then `saveState` under the lock. -/
def ensureWorkspaceEvents : List StateEvent :=
  withLockEvents [StateEvent.read, StateEvent.write]

/-- Events of `removeWorkspaceState`: `loadState`, then `saveState` only when the
record exists, under the lock. -/
def removeWorkspaceEvents (present : Bool) : List StateEvent :=
  withLockEvents (if present then [StateEvent.read, StateEvent.write] else [StateEvent.read])

/-- Checks that every `write` in a trace happens while the lock is held
(`depth` counts currently-held acquisitions). -/
def writesLocked : Nat → List StateEvent → Bool
  | _, [] => true
  | d, .acquire :: rest => writesLocked (d + 1) rest
  | d + 1, .release :: rest => writesLocked d rest
  | 0, .release :: _ => false
  | d, .write :: rest => decide (0 < d) && writesLocked d rest
  | d, .read :: rest => writesLocked d rest

theorem ensureWorkspaceEvents_locked : writesLocked 0 ensureWorkspaceEvents = true := by
  decide

theorem removeWorkspaceEvents_locked (present : Bool) :
    writesLocked 0 (removeWorkspaceEvents present) = true := by
  cases present <;> decide

/-! ### Frame conditions of `ensureWorkspaceState` -/

theorem lookupName_updateName_self {s : StateWorkspaces} {name : String}
    {r : WorkspaceRecord} (r' : WorkspaceRecord)
    (hl : lookupName s name = some r) :
    lookupName (updateName s name r') name = some r' := by
  induction s with
  | nil => simp [lookupName] at hl
  | cons kv rest ih =>
    rw [updateName_cons]
    by_cases hk : kv.1 = name
    · rw [if_pos hk, lookupName, if_pos hk]
    · rw [lookupName, if_neg hk] at hl
      rw [if_neg hk, lookupName, if_neg hk]
      exact ih hl

theorem lookupName_updateName_other {s : StateWorkspaces} {name other : String}
    (r' : WorkspaceRecord) (hne : other ≠ name) :
    lookupName (updateName s name r') other = lookupName s other := by
  induction s with
  | nil => rfl
  | cons kv rest ih =>
    rw [updateName_cons]
    by_cases hk : kv.1 = name
    · rw [if_pos hk, lookupName, lookupName]
      have hko : ¬kv.1 = other := by
        intro hcontra
        exact hne (by rw [← hcontra, hk])
      rw [if_neg hko, if_neg hko]
      exact ih
    · rw [if_neg hk, lookupName, lookupName]
      by_cases hko : kv.1 = other
      · rw [if_pos hko, if_pos hko]
      · rw [if_neg hko, if_neg hko]
        exact ih

/-- For an existing record, `ensureWorkspaceState` keeps `sshPort` and
`selectedKey`, overwrites `forwards` and `configDir`, leaves every other
record untouched, and does not change the allocated port list. -/
theorem ensureWorkspaceState_existing {s : StateWorkspaces} {r : WorkspaceRecord}
    (listening : List Nat) (resolved : ResolvedForState)
    (hl : lookupName s resolved.name = some r) :
    lookupName (ensureWorkspaceState listening resolved s).1 resolved.name =
      some { r with forwards := resolved.forwards, configDir := resolved.configDir } ∧
    (ensureWorkspaceState listening resolved s).2 =
      { r with forwards := resolved.forwards, configDir := resolved.configDir } ∧
    (∀ other : String, other ≠ resolved.name →
      lookupName (ensureWorkspaceState listening resolved s).1 other =
        lookupName s other) := by
  unfold ensureWorkspaceState
  rw [hl]
  dsimp only
  refine ⟨lookupName_updateName_self _ hl, rfl, ?_⟩
  intro other hne
  exact lookupName_updateName_other _ hne

/-- For an existing record the allocated port list is untouched: no
reallocation happens. -/
theorem ensureWorkspaceState_existing_ports {s : StateWorkspaces} {r : WorkspaceRecord}
    (listening : List Nat) (resolved : ResolvedForState)
    (hkeys : (s.map (fun kv => kv.1)).Nodup)
    (hl : lookupName s resolved.name = some r) :
    allocatedPorts (ensureWorkspaceState listening resolved s).1 = allocatedPorts s := by
  unfold ensureWorkspaceState
  rw [hl]
  dsimp only
  exact updateName_ports
    { r with forwards := resolved.forwards, configDir := resolved.configDir }
    hkeys hl rfl

/-- A fresh record (with a newly allocated port and no selected key) is
appended only when the name has no existing record. -/
theorem ensureWorkspaceState_new {s : StateWorkspaces}
    (listening : List Nat) (resolved : ResolvedForState)
    (hl : lookupName s resolved.name = none) :
    (ensureWorkspaceState listening resolved s).1 =
      s ++ [(resolved.name,
        { sshPort := findAvailableSshPort s listening,
          forwards := resolved.forwards, configDir := resolved.configDir,
          selectedKey := none })] ∧
    (ensureWorkspaceState listening resolved s).2 =
      { sshPort := findAvailableSshPort s listening,
        forwards := resolved.forwards, configDir := resolved.configDir,
        selectedKey := none } := by
  unfold ensureWorkspaceState
  rw [hl]
  exact ⟨rfl, rfl⟩

/-! ## The `start` action's state handling (`src/unnamed/part_005`)

After `ensureWorkspaceState` returns, the start action computes the SSH
key basename and assigns it to the *returned* record
(`runtime.selectedKey = selectedKeyBasename`); the runtime object then
feeds `runtime.json` and the docker environment.  No further write of
the state file happens in the action. -/

/-- Model of `path.basename` (POSIX): the part after the last `/` (for
paths without a trailing slash, the only shape key paths take here). -/
def pathBasename (s : String) : String :=
  match (splitOnChar '/' s.toList).getLast? with
  | some cs => String.mk cs
  | none => s

/-- Model of `getKeyBasename(keyPath)`: `null` stays `null`. -/
def getKeyBasename (keyPath : Option String) : Option String :=
  keyPath.map pathBasename

/-- The state-relevant slice of the `start` action for a new or
recreated workspace: `ensureWorkspaceState` under the lock, then the
selected-key basename is stored on the in-memory runtime record only. -/
def startStateFlow (listening : List Nat) (resolved : ResolvedForState)
    (selectedKey : Option String) (s : StateWorkspaces) :
    StateWorkspaces × WorkspaceRecord :=
  let res := ensureWorkspaceState listening resolved s
  (res.1, { res.2 with selectedKey := getKeyBasename selectedKey })

theorem startStateFlow_state (listening : List Nat) (resolved : ResolvedForState)
    (selectedKey : Option String) (s : StateWorkspaces) :
    (startStateFlow listening resolved selectedKey s).1 =
      (ensureWorkspaceState listening resolved s).1 := rfl

theorem startStateFlow_runtime_selectedKey (listening : List Nat)
    (resolved : ResolvedForState) (selectedKey : Option String) (s : StateWorkspaces) :
    (startStateFlow listening resolved selectedKey s).2.selectedKey =
      getKeyBasename selectedKey := rfl

/-! ## SSH key selector (`src/unnamed/part_006` with the validation of
`src/src/user-config.ts`)

The selector consults the validated user config (whose key paths have
been checked to exist on disk), the SSH agent, the three standard key
names, and finally a scan of `~/.ssh` for files containing
"PRIVATE KEY".  The filesystem and agent are abstracted into `KeyEnv`:
`existingFiles` is the set of paths for which `fs.existsSync` is true,
`sshDirListing` the `readdir` order of `~/.ssh`, and `agentKeys` the
identity comments parsed out of `ssh-add -L` (the parse itself is pure
string plumbing and is modelled as the resulting list). -/

structure SshFile where
  name : String
  isFile : Bool
  readable : Bool
  content : String
deriving Repr, DecidableEq

structure KeyEnv where
  homeDir : String
  cwd : String
  agentAvailable : Bool
  agentKeys : List String
  existingFiles : List String
  sshDirExists : Bool
  sshDirListing : List SshFile
deriving Repr, DecidableEq

/-- Model of `fs.existsSync`. -/
def fileExists (env : KeyEnv) (p : String) : Bool := env.existingFiles.contains p

/-- Suffix test (`String.prototype.endsWith`). -/
def strEndsWith (s suffix : String) : Bool :=
  listIsPrefix suffix.toList.reverse s.toList.reverse

def sshDirPath (env : KeyEnv) : String := env.homeDir ++ "/.ssh"

/-- Model of `discoverSshKeys()`: scan `~/.ssh`, skipping `.pub` files, the three
special names, non-files and unreadable files, keeping files whose
content contains "PRIVATE KEY". -/
def discoverSshKeys (env : KeyEnv) : List String :=
  if env.sshDirExists then
    env.sshDirListing.filterMap (fun f =>
      if strEndsWith f.name ".pub" then none
      else if f.name = "config" ∨ f.name = "known_hosts" ∨ f.name = "authorized_keys" then
        none
      else if f.isFile then
        if listIsInfix "PRIVATE KEY".toList f.content.toList then
          if f.readable then some (sshDirPath env ++ "/" ++ f.name) else none
        else none
      else none)
  else []

/-- Model of `getKeysFromAgent()`: empty unless `SSH_AUTH_SOCK` points at a live
socket; otherwise the identity comments listed by the agent. -/
def getKeysFromAgent (env : KeyEnv) : List String :=
  if env.agentAvailable then env.agentKeys else []

/-- JS truthiness of an optional string (`undefined`/`null`/`""` are falsy). -/
def jsTruthyStr : Option String → Bool
  | none => false
  | some s => s ≠ ""

/-- The user config after `validateUserConfig` (`user-config.ts`). -/
structure ValidatedSshConfig where
  defaultKey : Option String
  repos : Option (List (String × String))
deriving Repr, DecidableEq

/-- Model of `selectDefaultKey(userConfig)`. -/
def selectDefaultKey (cfg : ValidatedSshConfig) (env : KeyEnv) : Option String :=
  if jsTruthyStr cfg.defaultKey then cfg.defaultKey
  else
    let agentKeys := getKeysFromAgent env
    let fromAgent : Option String :=
      match agentKeys with
      | k :: _ => if fileExists env k then some k else none
      | [] => none
    match fromAgent with
    | some k => some k
    | none =>
      let standard := [sshDirPath env ++ "/id_ed25519", sshDirPath env ++ "/id_ecdsa",
        sshDirPath env ++ "/id_rsa"]
      match standard.find? (fun p => fileExists env p) with
      | some k => some k
      | none => (discoverSshKeys env).head?

/-- The source's `matchPattern` builds the regex `^P$` where the pattern's `*` become
`.*` and every other regex metacharacter is escaped.  The resulting
acceptance relation is glob matching with the sole wildcard `*`, which
`globMatchFuel` decides: a `*` pattern character absorbs any number of
URL characters, every other pattern character matches itself literally.
The fuel argument only drives structural recursion; any fuel above
`p.length + s.length` gives the same answer (`globMatchFuel_congr`). -/
def globMatchFuel : Nat → List Char → List Char → Bool
  | 0, _, _ => false
  | _ + 1, [], s => s.isEmpty
  | fuel + 1, p :: ps, [] => if p = '*' then globMatchFuel fuel ps [] else false
  | fuel + 1, p :: ps, c :: cs =>
    if p = '*' then globMatchFuel fuel ps (c :: cs) || globMatchFuel fuel (p :: ps) cs
    else p = c && globMatchFuel fuel ps cs

def globMatch (p s : List Char) : Bool :=
  globMatchFuel (p.length + s.length + 1) p s

/-- Declarative acceptance of the regex `matchPattern` builds: the empty
pattern accepts the empty string, a literal character accepts itself,
and `*` (that is, `.*`) accepts any prefix before the rest matches. -/
inductive GlobAccepts : List Char → List Char → Prop where
  | nil : GlobAccepts [] []
  | char (c : Char) {ps cs : List Char} :
      GlobAccepts ps cs → GlobAccepts (c :: ps) (c :: cs)
  | star (s₁ : List Char) {ps s₂ : List Char} :
      GlobAccepts ps s₂ → GlobAccepts ('*' :: ps) (s₁ ++ s₂)

/-- Model of `matchPattern(url, pattern)`: patterns without `*` compare by string
equality; otherwise the wildcard regex must accept the whole URL. -/
def matchPattern (url pattern : String) : Bool :=
  if listIsInfix ['*'] pattern.toList then globMatch pattern.toList url.toList
  else url == pattern

/-- Association-list read of `repos[url]` (JS string-keyed object in
insertion order). -/
def lookupKey (repos : List (String × String)) (url : String) : Option String :=
  match repos with
  | [] => none
  | pk :: rest => if pk.1 = url then some pk.2 else lookupKey rest url

/-- Model of `matchRepoToKey(repoUrl, userConfig)`: `null` for an empty URL or
missing `ssh.repos`; exact property hit first (when truthy), then the
first pattern in insertion order that matches. -/
def matchRepoToKey (url : String) (cfg : ValidatedSshConfig) : Option String :=
  match cfg.repos with
  | none => none
  | some repos =>
    if url = "" then none
    else
      match lookupKey repos url with
      | some v =>
        if v = "" then (repos.find? (fun pk => matchPattern url pk.1)).map (fun pk => pk.2)
        else some v
      | none => (repos.find? (fun pk => matchPattern url pk.1)).map (fun pk => pk.2)

/-- Model of `selectKeyForRepo(repoUrl, userConfig)`: repo-specific key when the
match is truthy, else the default-key heuristic. -/
def selectKeyForRepo (url : String) (cfg : ValidatedSshConfig) (env : KeyEnv) :
    Option String :=
  match matchRepoToKey url cfg with
  | some k => if k = "" then selectDefaultKey cfg env else some k
  | none => selectDefaultKey cfg env

/-- Model of `resolveKeyPath` of `user-config.ts`: `~/` against the home
directory, otherwise `path.resolve` against the invoking directory
(modelled as identity for absolute paths and a join for relative ones). -/
def resolveKeyPath (env : KeyEnv) (keyPath : String) : String :=
  if listIsPrefix ['~', '/'] keyPath.toList then env.homeDir ++ dropFirstChar keyPath
  else if isAbsolutePosix keyPath then keyPath
  else pathJoinSlash env.cwd keyPath

/-- The raw `ssh` section of the user config file. -/
structure RawSshConfig where
  defaultKey : Option String
  repos : Option (List (String × String))
deriving Repr, DecidableEq

/-- Model of `validateUserConfig`: resolve each configured key path and drop it
with a warning when the file does not exist. -/
def validateUserConfig (raw : RawSshConfig) (env : KeyEnv) : ValidatedSshConfig :=
  { defaultKey :=
      match raw.defaultKey with
      | some k =>
        if k = "" then none
        else
          let p := resolveKeyPath env k
          if fileExists env p then some p else none
      | none => none
    repos :=
      match raw.repos with
      | some repos =>
        some (repos.filterMap (fun pk =>
          let p := resolveKeyPath env pk.2
          if fileExists env p then some (pk.1, p) else none))
      | none => none }

/-- The default-key heuristic exactly as the claim words it: the agent
fallback is "the first SSH-agent identity whose private file exists on
disk".  Used to exhibit where the code departs from the claim. -/
def selectDefaultKeyClaim (cfg : ValidatedSshConfig) (env : KeyEnv) : Option String :=
  if jsTruthyStr cfg.defaultKey then cfg.defaultKey
  else
    match (getKeysFromAgent env).find? (fun k => fileExists env k) with
    | some k => some k
    | none =>
      let standard := [sshDirPath env ++ "/id_ed25519", sshDirPath env ++ "/id_ecdsa",
        sshDirPath env ++ "/id_rsa"]
      match standard.find? (fun p => fileExists env p) with
      | some k => some k
      | none => (discoverSshKeys env).head?

theorem globMatchFuel_congr :
    ∀ (n : Nat) (p s : List Char) (f1 f2 : Nat), p.length + s.length ≤ n →
      p.length + s.length < f1 → p.length + s.length < f2 →
      globMatchFuel f1 p s = globMatchFuel f2 p s := by
  intro n
  induction n with
  | zero =>
    intro p s f1 f2 hn h1 h2
    obtain ⟨hp, hs⟩ : p.length = 0 ∧ s.length = 0 := by omega
    obtain rfl : p = [] := List.length_eq_zero.mp hp
    obtain rfl : s = [] := List.length_eq_zero.mp hs
    obtain ⟨g1, rfl⟩ : ∃ g1, f1 = g1 + 1 := ⟨f1 - 1, by omega⟩
    obtain ⟨g2, rfl⟩ : ∃ g2, f2 = g2 + 1 := ⟨f2 - 1, by omega⟩
    rfl
  | succ m ih =>
    intro p s f1 f2 hn h1 h2
    obtain ⟨g1, rfl⟩ : ∃ g1, f1 = g1 + 1 := ⟨f1 - 1, by omega⟩
    obtain ⟨g2, rfl⟩ : ∃ g2, f2 = g2 + 1 := ⟨f2 - 1, by omega⟩
    cases p with
    | nil => rfl
    | cons c ps =>
      simp only [List.length_cons] at hn h1 h2
      cases s with
      | nil =>
        rw [globMatchFuel, globMatchFuel]
        by_cases hc : c = '*'
        · rw [if_pos hc, if_pos hc]
          exact ih ps [] g1 g2 (by simp only [List.length_nil] at hn ⊢; omega)
            (by simp only [List.length_nil] at h1 ⊢; omega)
            (by simp only [List.length_nil] at h2 ⊢; omega)
        · rw [if_neg hc, if_neg hc]
      | cons d ds =>
        simp only [List.length_cons] at hn h1 h2
        rw [globMatchFuel, globMatchFuel]
        by_cases hc : c = '*'
        · rw [if_pos hc, if_pos hc]
          subst hc
          rw [ih ps (d :: ds) g1 g2 (by simp only [List.length_cons]; omega)
            (by simp only [List.length_cons]; omega)
            (by simp only [List.length_cons]; omega)]
          rw [ih ('*' :: ps) ds g1 g2 (by simp only [List.length_cons]; omega)
            (by simp only [List.length_cons]; omega)
            (by simp only [List.length_cons]; omega)]
        · rw [if_neg hc, if_neg hc]
          rw [ih ps ds g1 g2 (by omega) (by omega) (by omega)]

theorem globMatchFuel_eq_globMatch {f : Nat} (p s : List Char)
    (hf : p.length + s.length < f) : globMatchFuel f p s = globMatch p s :=
  globMatchFuel_congr (p.length + s.length) p s f (p.length + s.length + 1)
    (Nat.le_refl _) hf (Nat.lt_succ_self _)

theorem globMatch_nil_eq (s : List Char) : globMatch [] s = s.isEmpty := rfl

theorem globMatch_star_nil (ps : List Char) :
    globMatch ('*' :: ps) [] = globMatch ps [] := by
  rw [globMatch, globMatchFuel, if_pos rfl]
  exact globMatchFuel_eq_globMatch ps []
    (by simp only [List.length_cons, List.length_nil]; omega)

theorem globMatch_star_cons (ps : List Char) (c : Char) (cs : List Char) :
    globMatch ('*' :: ps) (c :: cs) =
      (globMatch ps (c :: cs) || globMatch ('*' :: ps) cs) := by
  rw [globMatch, globMatchFuel, if_pos rfl]
  rw [globMatchFuel_eq_globMatch ps (c :: cs)
    (by simp only [List.length_cons]; omega)]
  rw [globMatchFuel_eq_globMatch ('*' :: ps) cs
    (by simp only [List.length_cons]; omega)]

theorem globMatch_char_nil {p : Char} (ps : List Char) (hp : p ≠ '*') :
    globMatch (p :: ps) [] = false := by
  rw [globMatch, globMatchFuel, if_neg hp]

theorem globMatch_char_cons {p : Char} (ps : List Char) (c : Char) (cs : List Char)
    (hp : p ≠ '*') :
    globMatch (p :: ps) (c :: cs) = (decide (p = c) && globMatch ps cs) := by
  rw [globMatch, globMatchFuel, if_neg hp]
  rw [globMatchFuel_eq_globMatch ps cs (by simp only [List.length_cons]; omega)]

theorem globMatch_star_of {ps s : List Char} (h : globMatch ps s = true) :
    globMatch ('*' :: ps) s = true := by
  cases s with
  | nil => rw [globMatch_star_nil]; exact h
  | cons c cs => rw [globMatch_star_cons]; simp [h]

theorem globMatch_star_append {ps : List Char} (s₁ : List Char) {s₂ : List Char}
    (h : globMatch ps s₂ = true) : globMatch ('*' :: ps) (s₁ ++ s₂) = true := by
  induction s₁ with
  | nil => simpa using globMatch_star_of h
  | cons c s₁ ih =>
    rw [List.cons_append, globMatch_star_cons]
    simp [ih]

theorem globMatch_complete {p s : List Char} (h : GlobAccepts p s) :
    globMatch p s = true := by
  induction h with
  | nil => rfl
  | char c hacc ih =>
    by_cases hc : c = '*'
    · subst hc
      rw [globMatch_star_cons]
      simp [globMatch_star_of ih]
    · rw [globMatch_char_cons _ _ _ hc]
      simp [ih]
  | star s₁ hacc ih => exact globMatch_star_append s₁ ih

theorem globMatch_sound : ∀ p s : List Char, globMatch p s = true → GlobAccepts p s := by
  intro p
  induction p with
  | nil =>
    intro s h
    rw [globMatch_nil_eq, List.isEmpty_iff] at h
    subst h
    exact GlobAccepts.nil
  | cons c ps ihp =>
    by_cases hc : c = '*'
    · subst hc
      intro s
      induction s with
      | nil =>
        intro h
        rw [globMatch_star_nil] at h
        exact GlobAccepts.star [] (ihp [] h)
      | cons d ds ihs =>
        intro h
        rw [globMatch_star_cons] at h
        rcases Bool.or_eq_true_iff.mp h with h1 | h1
        · have hacc := ihp (d :: ds) h1
          exact GlobAccepts.star [] hacc
        · have hacc := ihs h1
          cases hacc with
          | char _ htail => exact GlobAccepts.star ([d, '*'] : List Char) htail
          | star s₁ htail => exact GlobAccepts.star (d :: s₁) htail
    · intro s
      cases s with
      | nil =>
        intro h
        rw [globMatch_char_nil ps hc] at h
        exact absurd h (by simp)
      | cons d ds =>
        intro h
        rw [globMatch_char_cons _ _ _ hc] at h
        rcases Bool.and_eq_true_iff.mp h with ⟨h1, h2⟩
        have hcd : c = d := of_decide_eq_true h1
        subst hcd
        exact GlobAccepts.char c (ihp ds h2)

/-- When the pattern contains no `*`, glob acceptance is equality. -/
theorem globAccepts_no_star {p s : List Char} (hp : '*' ∉ p) :
    GlobAccepts p s ↔ p = s := by
  constructor
  · intro h
    induction h with
    | nil => rfl
    | char c hacc ih =>
      rename_i ps cs
      have hps : '*' ∉ ps := fun hmem => hp (List.mem_cons_of_mem c hmem)
      rw [ih hps]
    | star s₁ hacc ih =>
      exact absurd (List.mem_cons_self '*' _) hp
  · rintro rfl
    induction p with
    | nil => exact GlobAccepts.nil
    | cons c ps ih =>
      have hps : '*' ∉ ps := fun hmem => hp (List.mem_cons_of_mem c hmem)
      exact GlobAccepts.char c (ih hps)

theorem listIsInfix_singleton_mem {c : Char} {s : List Char} :
    listIsInfix [c] s = true ↔ c ∈ s := by
  induction s with
  | nil => simp [listIsInfix]
  | cons d ds ih =>
    have hpref : listIsPrefix [c] (d :: ds) = (decide (c = d) && true) := rfl
    rw [listIsInfix, Bool.or_eq_true_iff, hpref, List.mem_cons, ih]
    constructor
    · rintro (h1 | h1)
      · left; exact of_decide_eq_true (by simpa using h1)
      · right; exact h1
    · rintro (h1 | h1)
      · left; simp [h1]
      · right; exact h1

/-- The decision `matchPattern` agrees with the declarative wildcard acceptance in
both of its branches. -/
theorem matchPattern_iff_globAccepts (url pattern : String) :
    matchPattern url pattern = true ↔ GlobAccepts pattern.toList url.toList := by
  unfold matchPattern
  by_cases hstar : listIsInfix ['*'] pattern.toList = true
  · rw [if_pos hstar]
    constructor
    · exact globMatch_sound _ _
    · exact globMatch_complete
  · rw [if_neg hstar]
    have hnostar : '*' ∉ pattern.toList := by
      intro hmem
      exact hstar (listIsInfix_singleton_mem.mpr hmem)
    rw [globAccepts_no_star hnostar]
    constructor
    · intro h
      rw [eq_of_beq h]
    · intro h
      have hpu : pattern = url := by
        apply congrArg String.mk
        simpa [String.toList] using h
      rw [hpu]
      exact beq_self_eq_true url

/-- An exact `repos[repoUrl]` hit with a truthy value is returned. -/
theorem selectKeyForRepo_exact {url v : String} {repos : List (String × String)}
    (cfg : ValidatedSshConfig) (env : KeyEnv) (hrepos : cfg.repos = some repos)
    (hurl : url ≠ "") (hex : lookupKey repos url = some v) (hv : v ≠ "") :
    selectKeyForRepo url cfg env = some v := by
  unfold selectKeyForRepo matchRepoToKey
  rw [hrepos]
  dsimp only
  rw [if_neg hurl, hex]
  dsimp only
  rw [if_neg hv]
  dsimp only
  rw [if_neg hv]

/-- With no exact hit, the first pattern in declared order whose
wildcard regex accepts the URL supplies the key (when truthy). -/
theorem selectKeyForRepo_pattern {url p v : String} {repos : List (String × String)}
    (cfg : ValidatedSshConfig) (env : KeyEnv) (hrepos : cfg.repos = some repos)
    (hurl : url ≠ "") (hex : lookupKey repos url = none)
    (hfind : repos.find? (fun pk => matchPattern url pk.1) = some (p, v))
    (hv : v ≠ "") :
    selectKeyForRepo url cfg env = some v := by
  unfold selectKeyForRepo matchRepoToKey
  rw [hrepos]
  dsimp only
  rw [if_neg hurl, hex]
  dsimp only
  rw [hfind]
  dsimp only [Option.map]
  rw [if_neg hv]

/-- When the repo mapping yields nothing truthy, the default-key
heuristic decides. -/
theorem selectKeyForRepo_fallback {url : String} (cfg : ValidatedSshConfig)
    (env : KeyEnv)
    (h : matchRepoToKey url cfg = none ∨ matchRepoToKey url cfg = some "") :
    selectKeyForRepo url cfg env = selectDefaultKey cfg env := by
  unfold selectKeyForRepo
  rcases h with h | h
  · rw [h]
  · rw [h]
    dsimp only
    rw [if_pos rfl]

/-- A validated `ssh.defaultKey` always names an existing file. -/
theorem validateUserConfig_defaultKey_exists {raw : RawSshConfig} {env : KeyEnv}
    {k : String} (h : (validateUserConfig raw env).defaultKey = some k) :
    fileExists env k = true := by
  unfold validateUserConfig at h
  dsimp only at h
  rcases hdk : raw.defaultKey with _ | d <;> rw [hdk] at h <;> dsimp only at h
  · exact Option.noConfusion h
  · by_cases hd : d = ""
    · rw [if_pos hd] at h
      exact Option.noConfusion h
    · rw [if_neg hd] at h
      by_cases hex : fileExists env (resolveKeyPath env d) = true
      · rw [if_pos hex] at h
        rw [← Option.some.inj h]
        exact hex
      · rw [if_neg hex] at h
        exact Option.noConfusion h

/-- Every validated `ssh.repos` entry names an existing file. -/
theorem validateUserConfig_repos_exist {raw : RawSshConfig} {env : KeyEnv}
    {repos : List (String × String)}
    (h : (validateUserConfig raw env).repos = some repos) :
    ∀ pk ∈ repos, fileExists env pk.2 = true := by
  unfold validateUserConfig at h
  dsimp only at h
  rcases hrr : raw.repos with _ | rawRepos <;> rw [hrr] at h <;> dsimp only at h
  · exact Option.noConfusion h
  · rw [← Option.some.inj h]
    intro pk hpk
    obtain ⟨pk0, _, hpk0⟩ := List.mem_filterMap.mp hpk
    by_cases hex : fileExists env (resolveKeyPath env pk0.2) = true
    · rw [if_pos hex] at hpk0
      rw [← Option.some.inj hpk0]
      exact hex
    · rw [if_neg hex] at hpk0
      exact Option.noConfusion hpk0

/-! ## Docker run-argument assembly (`src/unnamed/part_005`,
`assembleRunArgs`) and the UID/GID sync gate (`src/unnamed/part_017`,
`syncUserWithHost`)

`assembleRunArgs` builds the flat `docker run` argument list.  `addEnv`
pushes `-e KEY=VALUE` but drops `undefined`/`null`/empty values, which
the `Option String` inputs model.  The filesystem/environment
dependencies (`fs.existsSync`, `process.env.SSH_AUTH_SOCK`) are fields
of `RunEnv`. -/

structure ResolvedForRun where
  name : String
  containerName : String
  imageTag : String
  configDir : String
  repoRemote : String
  repoBranch : String
  runtimeConfigPath : String
  mounts : List ResolvedMount
deriving Repr, DecidableEq

structure SshKeyInfo where
  publicKey : String
deriving Repr, DecidableEq

structure RuntimeForRun where
  sshPort : Nat
  selectedKey : Option String
deriving Repr, DecidableEq

structure RunEnv where
  hostHome : String
  userConfigDirExists : Bool
  hostHomeExists : Bool
  sshAuthSock : Option String
  sshAuthSockExists : Bool
  extraDockerArgs : List String
deriving Repr, DecidableEq

/-- Model of `addEnv(key, value)`: skipped for `undefined`/`null`/`""`. -/
def addEnv (key : String) (value : Option String) : List String :=
  match value with
  | none => []
  | some v => if v = "" then [] else ["-e", key ++ "=" ++ v]

/-- Model of `assembleRunArgs(resolved, sshKeyInfo, runtime, options)`. -/
def assembleRunArgs (resolved : ResolvedForRun) (sshKeyInfo : SshKeyInfo)
    (runtime : RuntimeForRun) (env : RunEnv) : List String :=
  ["--detach", "--privileged", "--name", resolved.containerName,
    "--hostname", resolved.containerName,
    "-p", toString runtime.sshPort ++ ":22"]
  ++ addEnv "USER" (some "workspace")
  ++ addEnv "WORKSPACE_NAME" (some resolved.name)
  ++ addEnv "SSH_PUBLIC_KEY" (some sshKeyInfo.publicKey)
  ++ addEnv "WORKSPACE_RUNTIME_CONFIG" (some "/workspace/config/runtime.json")
  ++ addEnv "WORKSPACE_SOURCE_DIR" (some "/workspace/source")
  ++ addEnv "HOST_HOME" (some "/host/home")
  ++ addEnv "WORKSPACE_ASSIGNED_SSH_PORT" (some (toString runtime.sshPort))
  ++ addEnv "WORKSPACE_REPO_URL" (some resolved.repoRemote)
  ++ addEnv "WORKSPACE_REPO_BRANCH" (some resolved.repoBranch)
  ++ (match runtime.selectedKey with
      | some k => if k = "" then [] else addEnv "WORKSPACE_SELECTED_SSH_KEY" (some k)
      | none => [])
  ++ addEnv "DOCKER_BUILDKIT" (some "1")
  ++ addEnv "COMPOSE_DOCKER_CLI_BUILD" (some "1")
  ++ ["-v", resolved.runtimeConfigPath ++ ":/workspace/config/runtime.json:ro"]
  ++ ["-v", resolved.configDir ++ ":/workspace/source:ro"]
  ++ (if env.userConfigDirExists then
        ["-v", env.hostHome ++ "/.workspaces" ++ ":/workspace/userconfig:ro"]
      else [])
  ++ (if env.hostHomeExists then ["-v", env.hostHome ++ ":/host/home:ro"] else [])
  ++ (match env.sshAuthSock with
      | some sock =>
        if sock = "" then []
        else if env.sshAuthSockExists then
          ["-v", sock ++ ":/ssh-agent"] ++ addEnv "SSH_AUTH_SOCK" (some "/ssh-agent")
        else []
      | none => [])
  ++ ["-v", resolved.containerName ++ "-home" ++ ":/home/workspace"]
  ++ ["-v", resolved.containerName ++ "-docker" ++ ":/var/lib/docker"]
  ++ ["-v", resolved.containerName ++ "-cache" ++ ":/home/workspace/.cache"]
  ++ resolved.mounts.flatMap
      (fun m => ["-v", m.source ++ ":" ++ m.target ++ ":" ++ m.mode])
  ++ env.extraDockerArgs
  ++ [resolved.imageTag]

/-- The `KEY=VALUE` strings occurring right after an `-e` flag. -/
def envAssignments : List String → List String
  | "-e" :: v :: rest => v :: envAssignments rest
  | _ :: rest => envAssignments rest
  | [] => []

/-- The value the container receives for environment variable `key`
(first `-e key=...` assignment wins, as in `docker run`). -/
def lookupEnvAssign (key : String) (args : List String) : Option String :=
  match (envAssignments args).find? (fun a => listIsPrefix (key ++ "=").toList a.toList) with
  | some a => some (String.mk (a.toList.drop (key ++ "=").toList.length))
  | none => none

/-- The decision `syncUserWithHost` takes from its `HOST_UID`/`HOST_GID`
environment inputs before any mutation happens. -/
inductive SyncDecision where
  | skippedNotSet
  | skippedInvalid
  | refusedRoot
  | alreadySynced
  | syncTo (uid gid : Int)
deriving Repr, DecidableEq

/-- The input gate of `syncUserWithHost` (`sync-user.ts`): skip when
either variable is unset or empty, skip when parsing fails, refuse uid
or gid 0, no-op when the `workspace` user already has the ids. -/
def syncUserDecision (hostUid hostGid : Option String)
    (currentUid currentGid : Int) : SyncDecision :=
  if jsTruthyStr hostUid = false ∨ jsTruthyStr hostGid = false then .skippedNotSet
  else
    match jsParseInt (hostUid.getD ""), jsParseInt (hostGid.getD "") with
    | some uid, some gid =>
      if uid = 0 ∨ gid = 0 then .refusedRoot
      else if currentUid = uid ∧ currentGid = gid then .alreadySynced
      else .syncTo uid gid
    | _, _ => .skippedInvalid

/-! ## In-container init (`workspace/internal/src/commands/init.ts`,
`lib/shell-helpers.ts`, `lib/bootstrap.ts`)

`runInit` is the agent command the host runs on every `start`.  The
fallible steps are the repository clone (`cloneRepository`, which skips
when no remote is configured or when the marker already exists) and the
bootstrap scripts (`runBootstrapScripts`); `copyGitConfig`,
`configureShellHelpers`, `installLazyVim` and `installDevTools` never
throw (every external command there passes `ignoreFailure`), so only
their marker gates are observable and modelled.  The marker file is
written only as the final statement of a run that completed every step.

The filesystem seen by the bootstrap runner is abstracted as a function
from the resolved script path to what `fs.stat` / the execute-bit check
/ the child exit code would report. -/

/-- Appended by `ensurePathExport` when the substring check fails. -/
def pathExportSuffix : String :=
  "\n# npm global packages\nexport PATH=\"$HOME/.npm-global/bin:$PATH\"\n"

/-- Model of `ensurePathExport(file)` of `shell-helpers.ts`: missing files are
left alone; the export block is appended unless `.npm-global/bin`
already occurs in the content. -/
def ensurePathExport : Option String → Option String
  | none => none
  | some c =>
    if jsIncludes c ".npm-global/bin" then some c else some (c ++ pathExportSuffix)

/-- Model of `configureShellHelpers(workspaceHome)`: the same treatment for
`.bashrc` and `.zshrc`. -/
def configureShellHelpers (bashrc zshrc : Option String) :
    Option String × Option String :=
  (ensurePathExport bashrc, ensurePathExport zshrc)

inductive ScriptSource where
  | project
  | user
deriving Repr, DecidableEq

structure BootstrapEntry where
  source : ScriptSource
  path : String
deriving Repr, DecidableEq

/-- What the container filesystem reports for a resolved script path:
absent, a directory (with its executable files and their exit codes),
or a plain file (with its execute bit and exit code). -/
inductive ScriptTarget where
  | missing
  | dir (execFiles : List (String × Nat))
  | file (executable : Bool) (exitCode : Nat)

inductive BootError where
  | missing (p : String)
  | notExecutable (p : String)
  | failed (p : String)
deriving Repr, DecidableEq

structure BootRes where
  executed : List String
  error : Option BootError
deriving Repr, DecidableEq

def scriptBaseDir : ScriptSource → String
  | .user => "/workspace/userconfig"
  | .project => "/workspace/source"

/-- Run a directory's executable files in order: every file up to and
including the first failure executes. -/
def runScriptsSeq : List (String × Nat) → List String × Option String
  | [] => ([], none)
  | (p, code) :: rest =>
    if code = 0 then
      let res := runScriptsSeq rest
      (p :: res.1, res.2)
    else ([p], some p)

def insertSorted (x : String × Nat) : List (String × Nat) → List (String × Nat)
  | [] => [x]
  | y :: ys => if x.1 ≤ y.1 then x :: y :: ys else y :: insertSorted x ys

/-- The helper `listExecutableFiles` sorts the directory's files ascending. -/
def sortByName (l : List (String × Nat)) : List (String × Nat) :=
  l.foldr insertSorted []

/-- Model of `runBootstrapScripts(workspaceHome, entries)`: resolve each entry
against its base directory; a missing path or a non-executable plain
file throws; a directory entry expands to its executable files sorted
ascending; a non-zero exit throws.  The trace of invoked script paths
is returned alongside the first error. -/
def runBootstrapScripts (fs : String → ScriptTarget) :
    List BootstrapEntry → BootRes
  | [] => { executed := [], error := none }
  | e :: rest =>
    let scriptPath := scriptBaseDir e.source ++ "/" ++ e.path
    match fs scriptPath with
    | .missing => { executed := [], error := some (.missing scriptPath) }
    | .dir files =>
      let full := sortByName (files.map (fun f => (scriptPath ++ "/" ++ f.1, f.2)))
      let res := runScriptsSeq full
      match res.2 with
      | some p => { executed := res.1, error := some (.failed p) }
      | none =>
        let tail := runBootstrapScripts fs rest
        { executed := res.1 ++ tail.executed, error := tail.error }
    | .file executable exitCode =>
      if executable then
        if exitCode = 0 then
          let tail := runBootstrapScripts fs rest
          { executed := scriptPath :: tail.executed, error := tail.error }
        else { executed := [scriptPath], error := some (.failed scriptPath) }
      else { executed := [], error := some (.notExecutable scriptPath) }

structure InitEnv where
  markerPresent : Bool
  repoUrl : String
  cloneArgsHaveBranch : Bool
  branchCloneOk : Bool
  baseCloneOk : Bool
  bashrc : Option String
  zshrc : Option String
  scriptFs : String → ScriptTarget
  entries : List BootstrapEntry

structure InitResult where
  ok : Bool
  markerAfter : Bool
  cloneAttempted : Bool
  lazyvimRan : Bool
  devtoolsRan : Bool
  bashrcAfter : Option String
  zshrcAfter : Option String
  executedScripts : List String

/-- Whether the clone step of `cloneRepository` succeeds: with a branch
already in `cloneArgs` only the plain clone runs; otherwise the
`--branch` attempt runs first and the plain clone is the retry. -/
def cloneSucceeds (env : InitEnv) : Bool :=
  if env.cloneArgsHaveBranch then env.baseCloneOk
  else env.branchCloneOk || env.baseCloneOk

/-- Model of `runInit()`: clone (skipped without a remote or once the marker
exists; a clone failure throws out of the run), then shell helpers,
then the marker-gated LazyVim and dev-tool installs, then the bootstrap
scripts (not marker-gated), and finally the marker write — reached only
when nothing threw. -/
def runInit (env : InitEnv) : InitResult :=
  let cloneNeeded : Bool := env.repoUrl != "" && !env.markerPresent
  if cloneNeeded && !cloneSucceeds env then
    { ok := false, markerAfter := env.markerPresent, cloneAttempted := true,
      lazyvimRan := false, devtoolsRan := false,
      bashrcAfter := env.bashrc, zshrcAfter := env.zshrc, executedScripts := [] }
  else
    let boot := runBootstrapScripts env.scriptFs env.entries
    { ok := boot.error.isNone,
      markerAfter := env.markerPresent || boot.error.isNone,
      cloneAttempted := cloneNeeded,
      lazyvimRan := !env.markerPresent,
      devtoolsRan := !env.markerPresent,
      bashrcAfter := ensurePathExport env.bashrc,
      zshrcAfter := ensurePathExport env.zshrc,
      executedScripts := boot.executed }

theorem ensurePathExport_none : ensurePathExport none = none := rfl

theorem ensurePathExport_already {s : String}
    (h : jsIncludes s ".npm-global/bin" = true) :
    ensurePathExport (some s) = some s := by
  rw [ensurePathExport, if_pos h]

theorem pathExportSuffix_includes :
    listIsInfix ".npm-global/bin".toList pathExportSuffix.toList = true := by
  decide

theorem jsIncludes_append_right {a b pat : String}
    (h : listIsInfix pat.toList b.toList = true) :
    jsIncludes (a ++ b) pat = true := by
  unfold jsIncludes
  have hd : (a ++ b).toList = a.toList ++ b.toList := String.data_append a b
  rw [hd]
  exact listIsInfix_append_left _ h

theorem ensurePathExport_appends {s : String}
    (h : jsIncludes s ".npm-global/bin" = false) :
    ensurePathExport (some s) = some (s ++ pathExportSuffix) ∧
      jsIncludes (s ++ pathExportSuffix) ".npm-global/bin" = true := by
  constructor
  · rw [ensurePathExport, h]
    simp
  · exact jsIncludes_append_right pathExportSuffix_includes

/-- The export append is idempotent. -/
theorem ensurePathExport_idem (c : Option String) :
    ensurePathExport (ensurePathExport c) = ensurePathExport c := by
  cases c with
  | none => rfl
  | some s =>
    by_cases h : jsIncludes s ".npm-global/bin" = true
    · rw [ensurePathExport_already h, ensurePathExport_already h]
    · have h0 : jsIncludes s ".npm-global/bin" = false := by
        cases hx : jsIncludes s ".npm-global/bin"
        · rfl
        · exact absurd hx h
      obtain ⟨h1, h2⟩ := ensurePathExport_appends h0
      rw [h1, ensurePathExport_already h2]

/-- The marker after a run: written on success, otherwise exactly the
pre-existing marker (never deleted). -/
theorem runInit_marker (env : InitEnv) :
    (runInit env).markerAfter = (env.markerPresent || (runInit env).ok) := by
  unfold runInit
  by_cases h : ((env.repoUrl != "" && !env.markerPresent) && !cloneSucceeds env) = true
  · rw [if_pos h]
    simp
  · rw [if_neg h]

/-- Once the marker exists, clone, LazyVim and dev tools are skipped,
while the bootstrap scripts still run (they are not gated by the
marker): the fallible work of the run is exactly `runBootstrapScripts`. -/
theorem runInit_marker_present (env : InitEnv) (h : env.markerPresent = true) :
    (runInit env).cloneAttempted = false ∧
    (runInit env).lazyvimRan = false ∧
    (runInit env).devtoolsRan = false ∧
    (runInit env).executedScripts =
      (runBootstrapScripts env.scriptFs env.entries).executed ∧
    (runInit env).ok = (runBootstrapScripts env.scriptFs env.entries).error.isNone := by
  unfold runInit
  rw [h]
  simp

/-- A run that completed has no bootstrap error. -/
theorem runInit_ok_no_bootstrap_error (env : InitEnv)
    (h : (runInit env).ok = true) :
    (runBootstrapScripts env.scriptFs env.entries).error = none := by
  unfold runInit at h
  by_cases hc : ((env.repoUrl != "" && !env.markerPresent) && !cloneSucceeds env) = true
  · rw [if_pos hc] at h
    exact absurd h (by simp)
  · rw [if_neg hc] at h
    simp only at h
    exact Option.isNone_iff_eq_none.mp h

/-- A completed run leaves the rc files in the state
`configureShellHelpers` produces. -/
theorem runInit_ok_shell_helpers (env : InitEnv) (h : (runInit env).ok = true) :
    (runInit env).bashrcAfter = ensurePathExport env.bashrc ∧
    (runInit env).zshrcAfter = ensurePathExport env.zshrc := by
  unfold runInit at h ⊢
  by_cases hc : ((env.repoUrl != "" && !env.markerPresent) && !cloneSucceeds env) = true
  · rw [if_pos hc] at h
    exact absurd h (by simp)
  · rw [if_neg hc]
    exact ⟨rfl, rfl⟩

/-- A missing first script aborts with no script executed. -/
theorem runBootstrapScripts_missing (fs : String → ScriptTarget)
    (e : BootstrapEntry) (rest : List BootstrapEntry)
    (h : fs (scriptBaseDir e.source ++ "/" ++ e.path) = .missing) :
    runBootstrapScripts fs (e :: rest) =
      { executed := [],
        error := some (.missing (scriptBaseDir e.source ++ "/" ++ e.path)) } := by
  unfold runBootstrapScripts
  dsimp only
  rw [h]

theorem lookupName_append_self {s : StateWorkspaces} {name : String}
    {r : WorkspaceRecord} (hnone : lookupName s name = none) :
    lookupName (s ++ [(name, r)]) name = some r := by
  induction s with
  | nil => simp [lookupName]
  | cons kv rest ih =>
    rw [lookupName] at hnone
    by_cases hk : kv.1 = name
    · rw [if_pos hk] at hnone
      exact Option.noConfusion hnone
    · rw [if_neg hk] at hnone
      rw [List.cons_append, lookupName, if_neg hk]
      exact ih hnone

/-! ## The claims -/

/-- Representative resolved config for exercising `assembleRunArgs`. -/
def demoResolvedRun : ResolvedForRun :=
  { name := "demo", containerName := "workspace-demo", imageTag := "workspace:latest",
    configDir := "/proj/demo", repoRemote := "git@github.com:o/r.git",
    repoBranch := "main",
    runtimeConfigPath := "/home/u/.workspaces/state/demo/runtime.json",
    mounts := [⟨"/tmp/ro", "/workspace/test-ro", "ro"⟩] }

def demoRunEnv : RunEnv :=
  { hostHome := "/home/u", userConfigDirExists := true, hostHomeExists := true,
    sshAuthSock := some "/tmp/agent.sock", sshAuthSockExists := true,
    extraDockerArgs := [] }

def demoRunArgs : List String :=
  assembleRunArgs demoResolvedRun ⟨"ssh-ed25519 AAA user"⟩ ⟨2300, some "id_ed25519"⟩
    demoRunEnv

/-- Claim C1: the assembled `docker run` argument list never carries
`-e HOST_UID=...` or `-e HOST_GID=...` (while the other documented
variables are present), so the in-container UID/GID syncer sees unset
inputs and skips the sync — evaluated at a representative start. -/
theorem claim1_hostUidNeverPassed :
    lookupEnvAssign "HOST_UID" demoRunArgs = none ∧
    lookupEnvAssign "HOST_GID" demoRunArgs = none ∧
    lookupEnvAssign "USER" demoRunArgs = some "workspace" ∧
    lookupEnvAssign "WORKSPACE_NAME" demoRunArgs = some "demo" ∧
    lookupEnvAssign "SSH_PUBLIC_KEY" demoRunArgs = some "ssh-ed25519 AAA user" ∧
    lookupEnvAssign "WORKSPACE_ASSIGNED_SSH_PORT" demoRunArgs = some "2300" ∧
    syncUserDecision (lookupEnvAssign "HOST_UID" demoRunArgs)
      (lookupEnvAssign "HOST_GID" demoRunArgs) 1000 1000 = .skippedNotSet := by
  decide

/-- Claim C2: across any sequence of start/stop/destroy state
operations, the state file's SSH ports stay pairwise distinct and at
least 2300, and the mutating operations write only while holding the
exclusive lock. -/
theorem claim2_sshPortInvariant :
    (∀ ops : List StateOp,
      ((runStateOps ops).map (fun kv => kv.2.sshPort)).Nodup ∧
      ∀ kv ∈ runStateOps ops, SSH_PORT_START ≤ kv.2.sshPort) ∧
    writesLocked 0 ensureWorkspaceEvents = true ∧
    (∀ present : Bool, writesLocked 0 (removeWorkspaceEvents present) = true) := by
  refine ⟨?_, ensureWorkspaceEvents_locked, removeWorkspaceEvents_locked⟩
  intro ops
  obtain ⟨_, hports, hge⟩ := runStateOps_inv ops
  exact ⟨hports, hge⟩

/-- Claim C3: forwards normalization yields only positive ports; an
integer entry yields itself in place; a parsed range with `0 < A ≤ B`
— written `A-B`, or `A:B` with the colon separator taking precedence —
expands in place to the `B-A+1` consecutive ports `A..B` in increasing
order ("7000-7000" yields `[7000]`); a range string one of whose
endpoints fails to parse, or whose endpoints are inverted (`B < A`) or
start non-positively, takes the `[none]` branch, and such an entry
contributes no ports in place; the entries `0` and `-1` also contribute
no ports. -/
theorem claim3_forwardsNormalization :
    (∀ (inputs : List ForwardInput) (p : Int), p ∈ resolveForwards inputs → 0 < p) ∧
    (∀ xs ys : List ForwardInput,
      resolveForwards (xs ++ ys) = resolveForwards xs ++ resolveForwards ys) ∧
    (∀ i : Int, resolveForwards [.num i] = if 0 < i then [i] else []) ∧
    (∀ (s : String) (sa sb : List Char) (rest : List (List Char)) (a b : Int),
      listIsInfix [':'] s.toList = false → listIsInfix ['-'] s.toList = true →
      splitOnChar '-' s.toList = sa :: sb :: rest →
      parseIntChars sa = some a → parseIntChars sb = some b → 0 < a → a ≤ b →
      resolveForwards [.str s] = rangeList a b ∧
      (rangeList a b).length = (b - a + 1).toNat ∧
      (∀ i : Nat, i < (rangeList a b).length → (rangeList a b).getD i 0 = a + i)) ∧
    resolveForwards [.str "7000-7000"] = [7000] ∧
    (∀ cs : List Char, expandRangeChars cs = [none] ∨
      ∃ a b : Int, 0 < a ∧ a ≤ b ∧ expandRangeChars cs = (rangeList a b).map some) ∧
    resolveForwards [.num 0] = [] ∧ resolveForwards [.num (-1)] = [] ∧
    (∀ (s : String) (sa sb : List Char) (rest : List (List Char)) (a b : Int),
      listIsInfix [':'] s.toList = true →
      splitOnChar ':' s.toList = sa :: sb :: rest →
      parseIntChars sa = some a → parseIntChars sb = some b → 0 < a → a ≤ b →
      resolveForwards [.str s] = rangeList a b ∧
      (rangeList a b).length = (b - a + 1).toNat ∧
      (∀ i : Nat, i < (rangeList a b).length → (rangeList a b).getD i 0 = a + i)) ∧
    (∀ (cs sa sb : List Char) (rest : List (List Char)),
      (listIsInfix ['-'] cs || listIsInfix [':'] cs) = true →
      splitOnChar (if listIsInfix [':'] cs then ':' else '-') cs =
        sa :: sb :: rest →
      (parseIntChars sa = none ∨ parseIntChars sb = none) →
      expandRangeChars cs = [none]) ∧
    (∀ (cs sa sb : List Char) (rest : List (List Char)) (a b : Int),
      (listIsInfix ['-'] cs || listIsInfix [':'] cs) = true →
      splitOnChar (if listIsInfix [':'] cs then ':' else '-') cs =
        sa :: sb :: rest →
      parseIntChars sa = some a → parseIntChars sb = some b →
      ¬(a ≤ b ∧ 0 < a) →
      expandRangeChars cs = [none]) ∧
    (∀ (xs ys : List ForwardInput) (s : String),
      expandRangeChars s.toList = [none] →
      resolveForwards (xs ++ .str s :: ys) =
        resolveForwards xs ++ resolveForwards ys) := by
  refine ⟨fun inputs p hp => resolveForwards_pos hp, resolveForwards_append,
    resolveForwards_num, ?_, resolveForwards_example,
    expandRangeChars_characterization, resolveForwards_zero_negone.1,
    resolveForwards_zero_negone.2, ?_, ?_, ?_, ?_⟩
  · intro s sa sb rest a b hsep hdash hsplit hpa hpb ha hab
    exact ⟨resolveForwards_range hsep hdash hsplit hpa hpb ha hab,
      rangeList_length, fun i hi => rangeList_getD i hi⟩
  · intro s sa sb rest a b hsep hsplit hpa hpb ha hab
    exact ⟨resolveForwards_range_colon hsep hsplit hpa hpb ha hab,
      rangeList_length, fun i hi => rangeList_getD i hi⟩
  · intro cs sa sb rest hsep hsplit h
    exact expandRangeChars_parse_fail hsep hsplit h
  · intro cs sa sb rest a b hsep hsplit hpa hpb hcond
    exact expandRangeChars_inverted hsep hsplit hpa hpb hcond
  · intro xs ys s h
    exact resolveForwards_str_none h xs ys

/-- Claim C3 witness: the statement's range clauses at the concrete
ranges `"5000-5003"` and `"4000:4002"`, the no-port branches at the
unparseable `"10-x"` and the inverted `"20-10"`, the in-place
no-contribution of `"20-10"` between two numeric entries, and the
concrete boundary entries. -/
theorem claim3_forwardsNormalization_witness :
    resolveForwards [.str "5000-5003"] = rangeList 5000 5003 ∧
    resolveForwards [.str "4000:4002"] = rangeList 4000 4002 ∧
    resolveForwards [.str "7000-7000"] = [7000] ∧
    expandRangeChars "10-x".toList = [none] ∧
    expandRangeChars "20-10".toList = [none] ∧
    resolveForwards ([.num 8080] ++ .str "20-10" :: [.num 9090]) =
      resolveForwards [.num 8080] ++ resolveForwards [.num 9090] ∧
    resolveForwards [.num 0] = [] := by
  refine ⟨(claim3_forwardsNormalization.2.2.2.1 "5000-5003"
    ['5', '0', '0', '0'] ['5', '0', '0', '3'] [] 5000 5003
    (by decide) (by decide) (by decide) (by decide) (by decide)
    (by decide) (by decide)).1,
    (claim3_forwardsNormalization.2.2.2.2.2.2.2.2.1 "4000:4002"
      ['4', '0', '0', '0'] ['4', '0', '0', '2'] [] 4000 4002
      (by decide) (by decide) (by decide) (by decide)
      (by decide) (by decide)).1,
    claim3_forwardsNormalization.2.2.2.2.1,
    claim3_forwardsNormalization.2.2.2.2.2.2.2.2.2.1 "10-x".toList
      ['1', '0'] ['x'] [] (by decide) (by decide) (Or.inr (by decide)),
    claim3_forwardsNormalization.2.2.2.2.2.2.2.2.2.2.1 "20-10".toList
      ['2', '0'] ['1', '0'] [] 20 10 (by decide) (by decide)
      (by decide) (by decide) (by decide),
    claim3_forwardsNormalization.2.2.2.2.2.2.2.2.2.2.2 [.num 8080]
      [.num 9090] "20-10" (by decide), ?_⟩
  exact claim3_forwardsNormalization.2.2.2.2.2.2.1

/-- Claim C4 counterexample: `ssh.repos` is non-empty, no pattern
matches, no default key is set; the agent lists two identities of which
only the second has its private file on disk.  The claim's wording
("the first SSH-agent identity whose private file exists") picks the
second identity, but the code checks only the first agent identity and,
finding its file missing, returns no key at all. -/
theorem claim4_counterexample :
    selectKeyForRepo "git@gitlab.com:x/y.git"
      ⟨none, some [("git@github.com:company/*", "/k/key")]⟩
      ⟨"/home/u", "/home/u", true, ["/a/k1", "/a/k2"], ["/a/k2", "/k/key"],
        false, []⟩ = none ∧
    selectDefaultKeyClaim
      ⟨none, some [("git@github.com:company/*", "/k/key")]⟩
      ⟨"/home/u", "/home/u", true, ["/a/k1", "/a/k2"], ["/a/k2", "/k/key"],
        false, []⟩ = some "/a/k2" := by
  decide

/-- Claim C4 (amended): an exact `ssh.repos` hit is returned first;
otherwise the first declared pattern whose `*`-wildcard regex (all
other metacharacters escaped) accepts the whole URL wins — `matchPattern`
provably decides that acceptance relation; otherwise the default-key
heuristic applies, where validation has already dropped configured keys
whose files do not exist, and the agent step considers only the first
listed identity (not the first whose file exists). -/
theorem claim4_keySelection :
    (∀ url pattern : String,
      matchPattern url pattern = true ↔ GlobAccepts pattern.toList url.toList) ∧
    (∀ (url v : String) (repos : List (String × String)) (cfg : ValidatedSshConfig)
      (env : KeyEnv), cfg.repos = some repos → url ≠ "" →
      lookupKey repos url = some v → v ≠ "" →
      selectKeyForRepo url cfg env = some v) ∧
    (∀ (url p v : String) (repos : List (String × String)) (cfg : ValidatedSshConfig)
      (env : KeyEnv), cfg.repos = some repos → url ≠ "" →
      lookupKey repos url = none →
      repos.find? (fun pk => matchPattern url pk.1) = some (p, v) → v ≠ "" →
      selectKeyForRepo url cfg env = some v) ∧
    (∀ (url : String) (cfg : ValidatedSshConfig) (env : KeyEnv),
      matchRepoToKey url cfg = none ∨ matchRepoToKey url cfg = some "" →
      selectKeyForRepo url cfg env = selectDefaultKey cfg env) ∧
    (∀ (raw : RawSshConfig) (env : KeyEnv) (k : String),
      (validateUserConfig raw env).defaultKey = some k → fileExists env k = true) ∧
    (∀ (raw : RawSshConfig) (env : KeyEnv) (repos : List (String × String)),
      (validateUserConfig raw env).repos = some repos →
      ∀ pk ∈ repos, fileExists env pk.2 = true) := by
  refine ⟨matchPattern_iff_globAccepts, ?_, ?_, ?_, ?_, ?_⟩
  · intro url v repos cfg env h1 h2 h3 h4
    exact selectKeyForRepo_exact cfg env h1 h2 h3 h4
  · intro url p v repos cfg env h1 h2 h3 h4 h5
    exact selectKeyForRepo_pattern cfg env h1 h2 h3 h4 h5
  · intro url cfg env h
    exact selectKeyForRepo_fallback cfg env h
  · intro raw env k h
    exact validateUserConfig_defaultKey_exists h
  · intro raw env repos h
    exact validateUserConfig_repos_exist h

/-- Claim C4 witness: the spec's own example mapping — the exact key
`git@github.com:company/special.git` beats the wildcard pattern, and the
wildcard pattern matches `git@github.com:company/other.git`. -/
theorem claim4_keySelection_witness :
    selectKeyForRepo "git@github.com:company/special.git"
      ⟨none, some [("git@github.com:company/*", "/k/id_work"),
        ("git@github.com:company/special.git", "/k/id_special")]⟩
      ⟨"/home/u", "/home/u", false, [], ["/k/id_work", "/k/id_special"],
        false, []⟩ = some "/k/id_special" ∧
    matchPattern "git@github.com:company/other.git" "git@github.com:company/*" = true := by
  constructor
  · exact claim4_keySelection.2.1 "git@github.com:company/special.git" "/k/id_special"
      [("git@github.com:company/*", "/k/id_work"),
        ("git@github.com:company/special.git", "/k/id_special")]
      ⟨none, some [("git@github.com:company/*", "/k/id_work"),
        ("git@github.com:company/special.git", "/k/id_special")]⟩
      ⟨"/home/u", "/home/u", false, [], ["/k/id_work", "/k/id_special"], false, []⟩
      rfl (by decide) (by decide) (by decide)
  · decide

/-- Claim C5 counterexample: the marker already exists, yet a run of the
in-container init executes the configured bootstrap script again (the
TS agent's `runBootstrapScripts` has no marker gate). -/
theorem claim5_counterexample :
    (runInit
      { markerPresent := true, repoUrl := "git@github.com:o/r.git",
        cloneArgsHaveBranch := false, branchCloneOk := true, baseCloneOk := true,
        bashrc := some "", zshrc := none,
        scriptFs := fun p =>
          if p = "/workspace/source/a.sh" then .file true 0 else .missing,
        entries := [⟨.project, "a.sh"⟩] }).executedScripts =
      ["/workspace/source/a.sh"] := by
  decide

/-- Claim C5 (amended): once the marker exists, a subsequent init run
skips the clone, the LazyVim install and the dev-tool install, but the
bootstrap scripts are NOT gated by the marker: the run still executes
exactly what `runBootstrapScripts` executes, and succeeds exactly when
no bootstrap script is missing, non-executable or failing. -/
theorem claim5_bootstrapNotGated :
    ∀ env : InitEnv, env.markerPresent = true →
      (runInit env).cloneAttempted = false ∧
      (runInit env).lazyvimRan = false ∧
      (runInit env).devtoolsRan = false ∧
      (runInit env).executedScripts =
        (runBootstrapScripts env.scriptFs env.entries).executed ∧
      (runInit env).ok = (runBootstrapScripts env.scriptFs env.entries).error.isNone :=
  fun env h => runInit_marker_present env h

/-- Claim C5 witness: the amended statement at a concrete marker-present
environment with one passing script. -/
theorem claim5_bootstrapNotGated_witness :
    (runInit
      { markerPresent := true, repoUrl := "", cloneArgsHaveBranch := false,
        branchCloneOk := true, baseCloneOk := true, bashrc := none, zshrc := none,
        scriptFs := fun p =>
          if p = "/workspace/source/b.sh" then .file true 0 else .missing,
        entries := [⟨.project, "b.sh"⟩] }).cloneAttempted = false ∧
    (runInit
      { markerPresent := true, repoUrl := "", cloneArgsHaveBranch := false,
        branchCloneOk := true, baseCloneOk := true, bashrc := none, zshrc := none,
        scriptFs := fun p =>
          if p = "/workspace/source/b.sh" then .file true 0 else .missing,
        entries := [⟨.project, "b.sh"⟩] }).executedScripts =
      (runBootstrapScripts
        (fun p => if p = "/workspace/source/b.sh" then .file true 0 else .missing)
        [⟨.project, "b.sh"⟩]).executed := by
  have h := claim5_bootstrapNotGated
    { markerPresent := true, repoUrl := "", cloneArgsHaveBranch := false,
      branchCloneOk := true, baseCloneOk := true, bashrc := none, zshrc := none,
      scriptFs := fun p =>
        if p = "/workspace/source/b.sh" then .file true 0 else .missing,
      entries := [⟨.project, "b.sh"⟩] } rfl
  exact ⟨h.1, h.2.2.2.1⟩

/-- Claim C6 counterexample: the marker exists from an earlier
successful init, and the current run aborts on a failing bootstrap
script — the run did not complete successfully, yet the marker file
still exists after it, refuting "exists if and only if the run
completed successfully". -/
theorem claim6_counterexample :
    (runInit
      { markerPresent := true, repoUrl := "", cloneArgsHaveBranch := false,
        branchCloneOk := true, baseCloneOk := true, bashrc := none, zshrc := none,
        scriptFs := fun p =>
          if p = "/workspace/source/c.sh" then .file true 1 else .missing,
        entries := [⟨.project, "c.sh"⟩] }).ok = false ∧
    (runInit
      { markerPresent := true, repoUrl := "", cloneArgsHaveBranch := false,
        branchCloneOk := true, baseCloneOk := true, bashrc := none, zshrc := none,
        scriptFs := fun p =>
          if p = "/workspace/source/c.sh" then .file true 1 else .missing,
        entries := [⟨.project, "c.sh"⟩] }).markerAfter = true := by
  decide

/-- Claim C6 (amended): a successful run leaves the marker present; an
aborting run never writes it (so starting without the marker, the
marker exists after the run exactly when the run completed); a
pre-existing marker persists through later aborts; and a completed run
had no missing, non-executable or failing bootstrap script. -/
theorem claim6_markerWrittenOnSuccess :
    ∀ env : InitEnv,
      (runInit env).markerAfter = (env.markerPresent || (runInit env).ok) ∧
      (env.markerPresent = false →
        ((runInit env).markerAfter = true ↔ (runInit env).ok = true)) ∧
      ((runInit env).ok = true →
        (runBootstrapScripts env.scriptFs env.entries).error = none) := by
  intro env
  refine ⟨runInit_marker env, ?_, runInit_ok_no_bootstrap_error env⟩
  intro h
  rw [runInit_marker env, h]
  simp

/-- Claim C6 witness: the amended statement at a concrete
marker-absent environment whose single bootstrap script fails, where
the marker is indeed not written. -/
theorem claim6_markerWrittenOnSuccess_witness :
    (runInit
      { markerPresent := false, repoUrl := "", cloneArgsHaveBranch := false,
        branchCloneOk := true, baseCloneOk := true, bashrc := none, zshrc := none,
        scriptFs := fun p =>
          if p = "/workspace/source/d.sh" then .file true 1 else .missing,
        entries := [⟨.project, "d.sh"⟩] }).markerAfter = true ↔
    (runInit
      { markerPresent := false, repoUrl := "", cloneArgsHaveBranch := false,
        branchCloneOk := true, baseCloneOk := true, bashrc := none, zshrc := none,
        scriptFs := fun p =>
          if p = "/workspace/source/d.sh" then .file true 1 else .missing,
        entries := [⟨.project, "d.sh"⟩] }).ok = true :=
  (claim6_markerWrittenOnSuccess
    { markerPresent := false, repoUrl := "", cloneArgsHaveBranch := false,
      branchCloneOk := true, baseCloneOk := true, bashrc := none, zshrc := none,
      scriptFs := fun p =>
        if p = "/workspace/source/d.sh" then .file true 1 else .missing,
      entries := [⟨.project, "d.sh"⟩] }).2.1 rfl

/-- Claim C7 counterexample: on the POSIX host the four-part mount
`C:/path:/container/path:ro` does get `C:/path` as its raw source, but
`C:/path` is not an absolute POSIX path, so the normalizer then joins
it onto the project config directory — the normalized source is not the
claimed `C:/path`. -/
theorem claim7_counterexample :
    normalizeMount "/proj" "/home/u" "C:/path:/container/path:ro" ≠
      some ⟨"C:/path", "/container/path", "ro"⟩ ∧
    normalizeMount "/proj" "/home/u" "C:/path:/container/path:ro" =
      some ⟨"/proj/C:/path", "/container/path", "ro"⟩ := by
  decide

/-- Claim C7 (amended): a four-part mount takes `parts[0]:parts[1]` as
its raw source with the mode corrected into `{ro, rw}`; every
normalized entry's mode is `ro` or `rw`; sources are absolute after
normalization (a leading `~` expands to the host home, other relative
sources are joined onto the project config directory) — so on a POSIX
host `C:/path:/container/path:ro` normalizes to source
`<configDir>/C:/path`, target `/container/path`, mode `ro`. -/
theorem claim7_mountNormalization :
    (∀ (configDir homeDir m : String) (r : ResolvedMount),
      normalizeMount configDir homeDir m = some r →
      r.mode = "ro" ∨ r.mode = "rw") ∧
    (∀ (configDir homeDir m : String) (r : ResolvedMount),
      isAbsolutePosix configDir = true → isAbsolutePosix homeDir = true →
      normalizeMount configDir homeDir m = some r →
      isAbsolutePosix r.source = true) ∧
    (∀ (configDir homeDir m p0 p1 t md : String),
      splitColon m = [p0, p1, t, md] →
      normalizeMount configDir homeDir m =
        some (finishMount configDir homeDir (p0 ++ ":" ++ p1) t (fixMode md))) ∧
    normalizeMount "/proj" "/home/u" "C:/path:/container/path:ro" =
      some ⟨"/proj/C:/path", "/container/path", "ro"⟩ := by
  refine ⟨?_, ?_, ?_, by decide⟩
  · intro configDir homeDir m r h
    exact normalizeMount_mode h
  · intro configDir homeDir m r h1 h2 h
    exact normalizeMount_absolute h1 h2 h
  · intro configDir homeDir m p0 p1 t md h
    exact normalizeMount_four_parts h

/-- Claim C7 witness: the mode and absoluteness clauses at the concrete
read-only mount of the spec's boundary example. -/
theorem claim7_mountNormalization_witness :
    ((finishMount "/proj" "/home/u" "/tmp/ro" "/workspace/test-ro" "ro").mode = "ro" ∨
      (finishMount "/proj" "/home/u" "/tmp/ro" "/workspace/test-ro" "ro").mode = "rw") ∧
    isAbsolutePosix
      (finishMount "/proj" "/home/u" "/tmp/ro" "/workspace/test-ro" "ro").source = true := by
  constructor
  · exact claim7_mountNormalization.1 "/proj" "/home/u" "/tmp/ro:/workspace/test-ro:ro"
      (finishMount "/proj" "/home/u" "/tmp/ro" "/workspace/test-ro" "ro") (by decide)
  · exact claim7_mountNormalization.2.1 "/proj" "/home/u" "/tmp/ro:/workspace/test-ro:ro"
      (finishMount "/proj" "/home/u" "/tmp/ro" "/workspace/test-ro" "ro")
      (by decide) (by decide) (by decide)

/-- Claim C8 counterexample: a first start of workspace `demo` selects
key `/home/u/.ssh/id_work`; the basename lands on the in-memory runtime
record, but the persisted state file keeps `selectedKey` unset, so the
next `ensureWorkspaceState` for `demo` returns `null`, not the
basename. -/
theorem claim8_counterexample :
    (startStateFlow [] ⟨"demo", "/proj/demo", []⟩
      (some "/home/u/.ssh/id_work") []).2.selectedKey = some "id_work" ∧
    (ensureWorkspaceState [] ⟨"demo", "/proj/demo", []⟩
      (startStateFlow [] ⟨"demo", "/proj/demo", []⟩
        (some "/home/u/.ssh/id_work") []).1).2.selectedKey = none := by
  decide

/-- Claim C8 (amended): the selected key's basename is stored only on
the in-memory runtime record (whence `runtime.json` and the container
environment); the start flow leaves the state file exactly as
`ensureWorkspaceState` wrote it, so for a workspace that had no record
a later `ensureWorkspaceState` returns `selectedKey = null` rather
than the basename. -/
theorem claim8_selectedKeyNotPersisted :
    ∀ (listening : List Nat) (resolved : ResolvedForState) (key : Option String)
      (s : StateWorkspaces),
      (startStateFlow listening resolved key s).2.selectedKey = getKeyBasename key ∧
      (startStateFlow listening resolved key s).1 =
        (ensureWorkspaceState listening resolved s).1 ∧
      (lookupName s resolved.name = none →
        (ensureWorkspaceState listening resolved
          (startStateFlow listening resolved key s).1).2.selectedKey = none) := by
  intro listening resolved key s
  refine ⟨rfl, rfl, ?_⟩
  intro hnone
  obtain ⟨hstate, _⟩ := ensureWorkspaceState_new listening resolved hnone
  rw [startStateFlow_state, hstate]
  have hl : lookupName (s ++ [(resolved.name, ⟨findAvailableSshPort s listening, resolved.forwards, resolved.configDir, none⟩)]) resolved.name = some ⟨findAvailableSshPort s listening, resolved.forwards, resolved.configDir, none⟩ :=
    lookupName_append_self hnone
  obtain ⟨_, hrec, _⟩ := ensureWorkspaceState_existing listening resolved hl
  rw [hrec]

/-- Claim C8 witness: the amended statement at the concrete first
start of workspace `demo`. -/
theorem claim8_selectedKeyNotPersisted_witness :
    (startStateFlow [] ⟨"demo", "/proj/demo", []⟩
      (some "/home/u/.ssh/id_work") []).2.selectedKey =
      getKeyBasename (some "/home/u/.ssh/id_work") ∧
    (ensureWorkspaceState [] ⟨"demo", "/proj/demo", []⟩
      (startStateFlow [] ⟨"demo", "/proj/demo", []⟩
        (some "/home/u/.ssh/id_work") []).1).2.selectedKey = none := by
  have h := claim8_selectedKeyNotPersisted [] ⟨"demo", "/proj/demo", []⟩
    (some "/home/u/.ssh/id_work") []
  exact ⟨h.1, h.2.2 rfl⟩

/-- Claim C9 counterexample: a run of the agent's shell-helper step on
an empty `.bashrc` appends the npm-global PATH export but not the
`GIT_SSH_COMMAND` export the claim requires (only the legacy
`init-workspace.sh` writes that line). -/
theorem claim9_counterexample :
    (ensurePathExport (some "")).map (fun c => jsIncludes c "GIT_SSH_COMMAND") =
      some false ∧
    (ensurePathExport (some "")).map (fun c => jsIncludes c ".npm-global/bin") =
      some true := by
  decide

/-- Claim C9 (amended): the agent's `configureShellHelpers` appends
only the npm-global PATH export, idempotently gated by the substring
`.npm-global/bin`, and only to rc files that exist: a missing file
stays missing, a file already containing the substring is unchanged, a
file without it gets exactly the export block appended (after which the
substring is present), a second run changes nothing, and a completed
init leaves both rc files in exactly this state.  The GIT_SSH_COMMAND
export is not appended. -/
theorem claim9_shellHelpers :
    ensurePathExport none = none ∧
    (∀ s : String, jsIncludes s ".npm-global/bin" = true →
      ensurePathExport (some s) = some s) ∧
    (∀ s : String, jsIncludes s ".npm-global/bin" = false →
      ensurePathExport (some s) = some (s ++ pathExportSuffix) ∧
      jsIncludes (s ++ pathExportSuffix) ".npm-global/bin" = true) ∧
    jsIncludes pathExportSuffix "GIT_SSH_COMMAND" = false ∧
    (∀ c : Option String, ensurePathExport (ensurePathExport c) = ensurePathExport c) ∧
    (∀ bashrc zshrc : Option String,
      configureShellHelpers bashrc zshrc =
        (ensurePathExport bashrc, ensurePathExport zshrc)) ∧
    (∀ env : InitEnv, (runInit env).ok = true →
      (runInit env).bashrcAfter = ensurePathExport env.bashrc ∧
      (runInit env).zshrcAfter = ensurePathExport env.zshrc) := by
  refine ⟨rfl, ?_, ?_, by decide, ensurePathExport_idem, fun b z => rfl,
    runInit_ok_shell_helpers⟩
  · intro s h
    exact ensurePathExport_already h
  · intro s h
    exact ensurePathExport_appends h

/-- Claim C9 witness: appending to an empty `.bashrc` inserts the PATH
export exactly once and a second run makes no change. -/
theorem claim9_shellHelpers_witness :
    (ensurePathExport (some "") = some ("" ++ pathExportSuffix) ∧
      jsIncludes ("" ++ pathExportSuffix) ".npm-global/bin" = true) ∧
    ensurePathExport (ensurePathExport (some "")) = ensurePathExport (some "") :=
  ⟨claim9_shellHelpers.2.2.1 "" (by decide), claim9_shellHelpers.2.2.2.2.1 (some "")⟩

/-- Claim C10: for a workspace whose record already exists,
`ensureWorkspaceState` keeps `sshPort` and `selectedKey` unchanged,
overwrites only `forwards` and `configDir`, leaves every other record
untouched and the allocated port list identical; a fresh port
allocation happens only for a name with no record. -/
theorem claim10_existingRecordFrame :
    ∀ (s : StateWorkspaces) (r : WorkspaceRecord) (listening : List Nat)
      (resolved : ResolvedForState),
      (s.map (fun kv => kv.1)).Nodup →
      lookupName s resolved.name = some r →
      lookupName (ensureWorkspaceState listening resolved s).1 resolved.name =
        some { r with forwards := resolved.forwards, configDir := resolved.configDir } ∧
      (ensureWorkspaceState listening resolved s).2 =
        { r with forwards := resolved.forwards, configDir := resolved.configDir } ∧
      (∀ other : String, other ≠ resolved.name →
        lookupName (ensureWorkspaceState listening resolved s).1 other =
          lookupName s other) ∧
      allocatedPorts (ensureWorkspaceState listening resolved s).1 =
        allocatedPorts s ∧
      (∀ s2 : StateWorkspaces, lookupName s2 resolved.name = none →
        (ensureWorkspaceState listening resolved s2).1 =
          s2 ++ [(resolved.name,
            { sshPort := findAvailableSshPort s2 listening,
              forwards := resolved.forwards, configDir := resolved.configDir,
              selectedKey := none })]) := by
  intro s r listening resolved hkeys hl
  obtain ⟨h1, h2, h3⟩ := ensureWorkspaceState_existing listening resolved hl
  refine ⟨h1, h2, h3, ensureWorkspaceState_existing_ports listening resolved hkeys hl, ?_⟩
  intro s2 hnone
  exact (ensureWorkspaceState_new listening resolved hnone).1

/-- Claim C10 witness: an existing `demo` record with port 2300 and a
stored selected key survives a re-`ensure` with new forwards and config
directory; its port and key are unchanged. -/
theorem claim10_existingRecordFrame_witness :
    lookupName (ensureWorkspaceState [] ⟨"demo", "/new", [3000]⟩
      [("demo", ⟨2300, [], "/old", some "id_work"⟩)]).1 "demo" =
      some ⟨2300, [3000], "/new", some "id_work"⟩ ∧
    (ensureWorkspaceState [] ⟨"demo", "/new", [3000]⟩
      [("demo", ⟨2300, [], "/old", some "id_work"⟩)]).2 =
      ⟨2300, [3000], "/new", some "id_work"⟩ := by
  have h := claim10_existingRecordFrame
    [("demo", ⟨2300, [], "/old", some "id_work"⟩)]
    ⟨2300, [], "/old", some "id_work"⟩ [] ⟨"demo", "/new", [3000]⟩
    (by decide) (by decide)
  exact ⟨h.1, h.2.1⟩

end WorkspaceProof
